import Mathlib

/-!
Shallow embedding of the planner3 resource-allocation engine.

Source files embedded:
  src/src/chartrow.rs    (ChartRow, TransferResult, the three transfer operations)
  src/src/chartperiod.rs (ChartPeriod)
  src/src/charttime.rs   (ChartTime)
  src/src/nodes/root/mod.rs (RootConfigData, DeveloperData, transfer_management_resource)
  src/src/nodes/data/mod.rs (NodeConfigData, transfer_future_resource and friends)
  src/src/web.rs         (call_on_children)

Modelling conventions:
  - Rust `&mut self` methods returning `Result<T>` become state-passing
    functions returning the updated state together with an `Except String T`.
    Mutations performed before an early `?`-return are preserved where a
    claim depends on them (the transfer loops); where no claim inspects the
    post-error state the Except layer simply reports the error.
  - `u32` becomes `Nat`.  Where the Rust code can underflow a `u32`
    (`reverse_fill_transfer_to`, and the `quarters_in_chart - 1` unwraps),
    the model returns `Option.none` for the underflow/panic outcome instead
    of silently truncating.
  - `f32`/`f64` accumulators are modelled exactly: the management-overhead
    accumulator (a sum of 0.2-steps) is kept as a count of fifths of a
    quarter, and the smear/plan arithmetic is kept in `ℚ`.  All exact values
    arising in the verified scenarios are far below the range where `f32`
    rounding could diverge from exact arithmetic.
  - `HashMap<String, DeveloperData>` becomes an association list; the code
    paths verified here are insensitive to iteration order.
-/

namespace Planner

/-- Equality of `Except` results is decidable; needed to evaluate the model
on concrete inputs. -/
instance {ε α : Type} [DecidableEq ε] [DecidableEq α] : DecidableEq (Except ε α) := fun x y =>
  match x, y with
  | .ok a, .ok b => if h : a = b then .isTrue (by rw [h]) else .isFalse (by simp [h])
  | .error a, .error b => if h : a = b then .isTrue (by rw [h]) else .isFalse (by simp [h])
  | .ok _, .error _ => .isFalse (by simp)
  | .error _, .ok _ => .isFalse (by simp)

/-- Bit-population count of one byte, mirroring the Rust loop in
`ChartRow::count`: `while cell_copy != 0 { if cell_copy & 1 ... ; >>= 1 }`. -/
def popcount (n : Nat) : Nat :=
  if h : n = 0 then 0 else n % 2 + popcount (n / 2)
decreasing_by exact Nat.div_lt_self (Nat.pos_of_ne_zero h) (by decide)

/-- Closed interval of quarter-day cell indices (src/src/chartperiod.rs). -/
structure ChartPeriod where
  first : Nat
  last : Nat
deriving DecidableEq, Repr

/-- `ChartPeriod::new` rejects `first > last`. -/
def ChartPeriod.new (first last : Nat) : Except String ChartPeriod :=
  if first > last then .error "End of period must be after the start"
  else .ok ⟨first, last⟩

def ChartPeriod.get_first (p : ChartPeriod) : Nat := p.first

def ChartPeriod.get_last (p : ChartPeriod) : Nat := p.last

def ChartPeriod.length (p : ChartPeriod) : Nat := p.last + 1 - p.first

/-- `ChartPeriod::intersect`, translated branch for branch. -/
def ChartPeriod.intersect (p other : ChartPeriod) : Option ChartPeriod :=
  if p.first ≥ other.first ∧ p.first ≤ other.last then
    if p.last > other.last then some ⟨p.first, other.last⟩
    else some ⟨p.first, p.last⟩
  else if other.first ≥ p.first ∧ other.first ≤ p.last then
    if other.last > p.last then some ⟨other.first, p.last⟩
    else some ⟨other.first, other.last⟩
  else none

/-- The time cells for a single Gantt row, split into 1/4 day chunks,
stored as a bit field over a growable byte vector (src/src/chartrow.rs). -/
structure ChartRow where
  num_cells : Nat
  cells : List Nat
deriving DecidableEq, Repr

/-- `ChartRow::new`: all cells unallocated. -/
def ChartRow.new (num_cells : Nat) : ChartRow := ⟨num_cells, []⟩

/-- Bytes of a row fit in a `u8`; this is the type invariant the Rust
`Vec<u8>` representation gives for free. -/
def ChartRow.WF8 (row : ChartRow) : Prop := ∀ b ∈ row.cells, b < 256

instance (row : ChartRow) : Decidable row.WF8 := by
  unfold ChartRow.WF8; infer_instance

/-- `ChartRow::is_set`. -/
def ChartRow.is_set (row : ChartRow) (cell : Nat) : Bool :=
  let byte := cell / 8
  let bit := cell % 8
  let test := 1 <<< bit
  if row.cells.length < byte + 1 then false
  else (row.cells.getD byte 0) &&& test == test

/-- `ChartRow::set`: fails for `cell ≥ num_cells`; otherwise grows the byte
vector as needed and ORs the bit in. -/
def ChartRow.set (row : ChartRow) (cell : Nat) : ChartRow × Except String Unit :=
  if cell ≥ row.num_cells then
    (row, .error "Failed to set cell, chart width exceeded")
  else
    let byte := cell / 8
    let bit := cell % 8
    let test := 1 <<< bit
    let padded := row.cells ++ List.replicate (byte + 1 - row.cells.length) 0
    ({ row with cells := padded.set byte ((padded.getD byte 0) ||| test) }, .ok ())

/-- `ChartRow::unset`: fails for `cell ≥ num_cells`; only touches the byte
vector when it already covers the byte (`!test` on a `u8` is `255 ^^^ test`). -/
def ChartRow.unset (row : ChartRow) (cell : Nat) : ChartRow × Except String Unit :=
  if cell ≥ row.num_cells then
    (row, .error "Failed to unset cell, chart width exceeded")
  else
    let byte := cell / 8
    let bit := cell % 8
    let test := 1 <<< bit
    if row.cells.length > byte then
      ({ row with cells := row.cells.set byte ((row.cells.getD byte 0) &&& (255 ^^^ test)) },
       .ok ())
    else (row, .ok ())

/-- Loop body of `ChartRow::set_range`. -/
def ChartRow.setRangeLoop : ChartRow → List Nat → ChartRow × Except String Unit
  | row, [] => (row, .ok ())
  | row, c :: rest =>
    match row.set c with
    | (row1, .error e) => (row1, .error e)
    | (row1, .ok ()) => setRangeLoop row1 rest

/-- `ChartRow::set_range`: set every cell in `period.get_first() ..= period.get_last()`. -/
def ChartRow.set_range (row : ChartRow) (period : ChartPeriod) : ChartRow × Except String Unit :=
  setRangeLoop row (List.range' period.first (period.last + 1 - period.first))

/-- `ChartRow::count_range`: popcount over a closed interval of cells. -/
def ChartRow.count_range (row : ChartRow) (period : ChartPeriod) : Nat :=
  (List.range' period.first (period.last + 1 - period.first)).countP (fun c => row.is_set c)

/-- `ChartRow::count`: total number of set cells, summing a per-byte popcount. -/
def ChartRow.count (row : ChartRow) : Nat :=
  (row.cells.map popcount).sum

/-- `ChartRow::get_weekly_numbers`.  Note the Rust code builds each weekly
window as `ChartPeriod::new(week*20, (week+1)*20)` (21 cells, unwrap always
succeeds), not `[week*20, week*20+19]`.  The `num_cells - 1` underflow for a
zero-width row is not modelled (Nat subtraction truncates). -/
def ChartRow.get_weekly_numbers (row : ChartRow) : List Nat :=
  let weeks := 1 + (row.num_cells - 1) / 20
  (List.range weeks).map (fun week => row.count_range ⟨week * 20, (week + 1) * 20⟩)

/-- Results from a resource transfer attempt (src/src/chartrow.rs). -/
structure TransferResult where
  earliest : Option Nat
  latest : Option Nat
  transferred : Nat
  failed : Nat
deriving DecidableEq, Repr

/-- `TransferResult::new`. -/
def TransferResult.new (to_transfer : Nat) : TransferResult :=
  ⟨none, none, 0, to_transfer⟩

/-- `TransferResult::to_transfer`. -/
def TransferResult.to_transfer (r : TransferResult) : Nat := r.failed

/-- `TransferResult::transfer`: errors when nothing is left to transfer,
otherwise moves one unit from `failed` to `transferred` and updates the
earliest/latest markers. -/
def TransferResult.transfer (r : TransferResult) (cell : Nat) : Except String TransferResult :=
  if r.failed = 0 then .error "Tried to transer too many cells"
  else
    let r1 : TransferResult :=
      { r with failed := r.failed - 1, transferred := r.transferred + 1 }
    let r2 : TransferResult :=
      match r1.earliest with
      | some e => if cell < e then { r1 with earliest := some cell } else r1
      | none => { r1 with earliest := some cell }
    match r2.latest with
    | some e => if cell > e then .ok { r2 with latest := some cell } else .ok r2
    | none => .ok { r2 with latest := some cell }

/-- Loop body of `ChartRow::fill_transfer_to`: scan the period low to high,
moving each transferable cell until the request is exhausted.  The pair of
rows is threaded through and preserved even when an early `?`-return fires
(the Rust `&mut` arguments keep their partial mutations in that case). -/
def ChartRow.fillLoop :
    ChartRow → ChartRow → TransferResult → List Nat →
    ChartRow × ChartRow × Except String TransferResult
  | self, dest, rc, [] => (self, dest, .ok rc)
  | self, dest, rc, cell :: rest =>
    if self.is_set cell && !(dest.is_set cell) then
      match self.unset cell with
      | (self1, .error e) => (self1, dest, .error e)
      | (self1, .ok ()) =>
        match dest.set cell with
        | (dest1, .error e) => (self1, dest1, .error e)
        | (dest1, .ok ()) =>
          match rc.transfer cell with
          | .error e => (self1, dest1, .error e)
          | .ok rc1 =>
            if rc1.to_transfer = 0 then (self1, dest1, .ok rc1)
            else fillLoop self1 dest1 rc1 rest
    else fillLoop self dest rc rest

/-- `ChartRow::fill_transfer_to`. -/
def ChartRow.fill_transfer_to (self dest : ChartRow) (count : Nat) (period : ChartPeriod) :
    ChartRow × ChartRow × Except String TransferResult :=
  fillLoop self dest (TransferResult.new count)
    (List.range' period.first (period.last + 1 - period.first))

/-- Loop body of `ChartRow::reverse_fill_transfer_to`.  The cell list is the
descending sequence `last-1, last-2, ..., first` the Rust `while` loop walks.
`underflow` records whether `period.get_first() == 0`: when the loop runs off
the low end without exhausting the request, the Rust `cell -= 1` underflows
the `u32` at cell 0, which this model reports as `none` (a panic in debug
builds; a wrap-around in release builds). -/
def ChartRow.reverseLoop :
    ChartRow → ChartRow → TransferResult → List Nat → Bool →
    Option (ChartRow × ChartRow × Except String TransferResult)
  | self, dest, rc, [], underflow =>
    if underflow then none else some (self, dest, .ok rc)
  | self, dest, rc, cell :: rest, underflow =>
    if self.is_set cell && !(dest.is_set cell) then
      match self.unset cell with
      | (self1, .error e) => some (self1, dest, .error e)
      | (self1, .ok ()) =>
        match dest.set cell with
        | (dest1, .error e) => some (self1, dest1, .error e)
        | (dest1, .ok ()) =>
          match rc.transfer cell with
          | .error e => some (self1, dest1, .error e)
          | .ok rc1 =>
            if rc1.to_transfer = 0 then some (self1, dest1, .ok rc1)
            else reverseLoop self1 dest1 rc1 rest underflow
    else reverseLoop self dest rc rest underflow

/-- `ChartRow::reverse_fill_transfer_to`.  The scan starts at
`period.get_last() - 1` (not `get_last()`), exactly as in the source; when
`get_last() == 0` that initial subtraction already underflows, reported as
`none`. -/
def ChartRow.reverse_fill_transfer_to (self dest : ChartRow) (count : Nat)
    (period : ChartPeriod) :
    Option (ChartRow × ChartRow × Except String TransferResult) :=
  if period.last = 0 then none
  else
    reverseLoop self dest (TransferResult.new count)
      ((List.range' period.first (period.last - period.first)).reverse)
      (period.first == 0)

/-- One pass of `ChartRow::smear_transfer_to`: walk the period keeping the
running float target `want_allocated` (modelled exactly in `ℚ`) and the
per-pass transfer count `transferred_this_run`. -/
def ChartRow.smearPass :
    ChartRow → ChartRow → TransferResult → ℚ → ℚ → Nat → List Nat →
    ChartRow × ChartRow × Except String TransferResult × Nat
  | self, dest, rc, _, _, trun, [] => (self, dest, .ok rc, trun)
  | self, dest, rc, per, want, trun, cell :: rest =>
    let want1 := want + per
    if want1 > (trun : ℚ) && self.is_set cell && !(dest.is_set cell) then
      let trun1 := trun + 1
      match self.unset cell with
      | (self1, .error e) => (self1, dest, .error e, trun1)
      | (self1, .ok ()) =>
        match dest.set cell with
        | (dest1, .error e) => (self1, dest1, .error e, trun1)
        | (dest1, .ok ()) =>
          match rc.transfer cell with
          | .error e => (self1, dest1, .error e, trun1)
          | .ok rc1 =>
            if rc1.to_transfer = 0 then (self1, dest1, .ok rc1, trun1)
            else smearPass self1 dest1 rc1 per want1 trun1 rest
    else smearPass self dest rc per want1 trun rest

/-- Outer loop of `ChartRow::smear_transfer_to`: repeat passes while the last
pass transferred something and cells remain to transfer (the Rust `while`
with `transferred_this_run` initialised to 1).  Termination: along a
successful pass, `failed` drops by exactly the number of cells the pass
transferred, so a pass with nonzero progress strictly shrinks `rc.failed`;
the inline induction in `decreasing_by` establishes exactly that invariant. -/
def ChartRow.smearOuter (self dest : ChartRow) (rc : TransferResult) (period : ChartPeriod) :
    ChartRow × ChartRow × Except String TransferResult :=
  if h0 : rc.to_transfer ≠ 0 then
    let amount_per_cell : ℚ := (rc.to_transfer : ℚ) / (period.length : ℚ)
    match hp : smearPass self dest rc amount_per_cell 0 0
        (List.range' period.first (period.last + 1 - period.first)) with
    | (self1, dest1, .error e, _) => (self1, dest1, .error e)
    | (self1, dest1, .ok rc1, trun) =>
      if ht : trun ≠ 0 then smearOuter self1 dest1 rc1 period
      else (self1, dest1, .ok rc1)
  else (self, dest, .ok rc)
termination_by rc.failed
decreasing_by
  have key : ∀ (cells : List Nat) (s d : ChartRow) (r : TransferResult) (pe wa : ℚ)
      (tr : Nat) (s1 d1 : ChartRow) (r1 : TransferResult) (tr1 : Nat),
      smearPass s d r pe wa tr cells = (s1, d1, .ok r1, tr1) →
      r1.failed + tr1 = r.failed + tr := by
    intro cells
    induction cells with
    | nil =>
      intro s d r pe wa tr s1 d1 r1 tr1 h
      simp only [smearPass, Prod.mk.injEq] at h
      obtain ⟨-, -, h2, h3⟩ := h
      cases h2
      omega
    | cons cell rest ih =>
      intro s d r pe wa tr s1 d1 r1 tr1 h
      simp only [smearPass] at h
      split at h
      · split at h
        next su e hu => simp at h
        next su hu =>
          split at h
          next du e hs => simp at h
          next du hs =>
            split at h
            next e htr => simp at h
            next rcm htr =>
              have hfm : rcm.failed = r.failed - 1 ∧ r.failed ≠ 0 := by
                unfold TransferResult.transfer at htr
                by_cases hz0 : r.failed = 0
                · rw [if_pos hz0] at htr; cases htr
                · rw [if_neg hz0] at htr
                  refine ⟨?_, hz0⟩
                  rcases r with ⟨e1, l1, t1, f1⟩
                  cases e1 <;> cases l1 <;> simp only at htr <;> try split_ifs at htr
                  all_goals try simp only at htr
                  all_goals try split_ifs at htr
                  all_goals (cases htr; rfl)
              split at h
              next hz =>
                simp only [Prod.mk.injEq] at h
                obtain ⟨-, -, h2, h3⟩ := h
                cases h2
                omega
              next hz =>
                have := ih su du rcm pe (wa + pe) (tr + 1) s1 d1 r1 tr1 h
                omega
      · exact ih s d r pe (wa + pe) tr s1 d1 r1 tr1 h
  have hinv := key _ _ _ _ _ _ _ _ _ _ _ hp
  unfold TransferResult.to_transfer at h0
  omega

/-- `ChartRow::smear_transfer_to`.  The `f64` running targets are modelled
exactly in `ℚ`; `period.length()` is nonzero for every period built by
`ChartPeriod::new`, so the division is well defined on all reachable inputs. -/
def ChartRow.smear_transfer_to (self dest : ChartRow) (count : Nat) (period : ChartPeriod) :
    ChartRow × ChartRow × Except String TransferResult :=
  smearOuter self dest (TransferResult.new count) period

/-- A chart time `(week, day, quarter)` with implicit precision
(src/src/charttime.rs). -/
structure ChartTime where
  week : Nat
  day : Option Nat
  quarter : Option Nat
deriving DecidableEq, Repr

/-- `ChartTime::duration`. -/
def ChartTime.duration (t : ChartTime) : Nat :=
  if t.quarter.isSome then 1 else if t.day.isSome then 4 else 20

/-- `ChartTime::to_u32`: the quarter index this time starts at. -/
def ChartTime.to_u32 (t : ChartTime) : Nat :=
  (t.week - 1) * 20 + (t.day.getD 1 - 1) * 4 + t.quarter.getD 1 - 1

/-- `ChartTime::end_as_u32`. -/
def ChartTime.end_as_u32 (t : ChartTime) : Nat :=
  t.to_u32 + t.duration - 1

/-- Strategy for scheduling child nodes (src/src/nodes/data/mod.rs). -/
inductive SchedulingStrategy where
  | Serial
  | Parallel
deriving DecidableEq, Repr

/-- Strategy for allocating the budget (src/src/nodes/data/mod.rs). -/
inductive ResourcingStrategy where
  | Management
  | SmearProRata
  | SmearRemaining
  | FrontLoad
  | BackLoad
  | ProdSFR
  | ProdSFR_part2
deriving DecidableEq, Repr

/-- One plan entry (src/src/nodes/data/mod.rs). -/
structure PlanEntry where
  when : Nat
  plan : Nat
  suffix : Option String
deriving DecidableEq, Repr

/-- One done entry (src/src/nodes/data/mod.rs). -/
structure DoneEntry where
  start : ChartTime
  time : Nat
deriving DecidableEq, Repr

/-- Per-developer data (src/src/nodes/root/mod.rs).  The `unallocated`
counter is written by `NodeConfigData::transfer_future_resource`
(src/src/nodes/data/mod.rs line 424) but is absent from the `DeveloperData`
declaration in src/src/nodes/root/mod.rs; it is modelled here as a plain
counter so that the call sites can be translated. -/
structure DeveloperData where
  cells : ChartRow
  period : ChartPeriod
  unallocated : Nat
deriving DecidableEq, Repr

/-- `DeveloperData::new`: a fresh row with exactly the availability period set. -/
def DeveloperData.new (cells : Nat) (period : ChartPeriod) : Except String DeveloperData :=
  match (ChartRow.new cells).set_range period with
  | (_, .error e) => .error e
  | (row, .ok ()) => .ok ⟨row, period, 0⟩

/-- Chart-wide configuration (src/src/nodes/root/mod.rs).  The `start_date`
and `labels` fields are not used by any verified operation and are omitted.
The `HashMap<String, DeveloperData>` is modelled as an association list.
`plan_dev_duration` backs `get_plan_dev_duration`, which is called by
`NodeConfigData` but not declared anywhere in src; modelled from the spec,
which refers to it only as the scalar `dev_duration`. -/
structure RootConfigData where
  weeks : Nat
  now : Nat
  manager : Option String
  developers : List (String × DeveloperData)
  plan_dev_duration : Nat
deriving DecidableEq, Repr

def RootConfigData.get_weeks (root : RootConfigData) : Nat := root.weeks

def RootConfigData.get_now (root : RootConfigData) : Nat := root.now

def RootConfigData.get_manager (root : RootConfigData) : Option String := root.manager

/-- `RootConfigData::get_dev_period`. -/
def RootConfigData.get_dev_period (root : RootConfigData) (name : String) : Option ChartPeriod :=
  (root.developers.find? (fun p => p.1 == name)).map (fun p => p.2.period)

/-- Modelled from the spec: `get_dev_data` is called by `NodeConfigData`
(src/src/nodes/data/mod.rs lines 192 and 344) but not declared in
src/src/nodes/root/mod.rs; the spec data model makes it the lookup of a
developer record by name. -/
def RootConfigData.get_dev_data (root : RootConfigData) (name : String) : Option DeveloperData :=
  (root.developers.find? (fun p => p.1 == name)).map (fun p => p.2)

/-- Write an updated developer record back into the map: the state-passing
translation of mutating through the `&mut` borrow `get_dev_data` hands out. -/
def RootConfigData.set_dev_data (root : RootConfigData) (name : String) (d : DeveloperData) :
    RootConfigData :=
  { root with developers := root.developers.map (fun p => if p.1 == name then (p.1, d) else p) }

/-- Modelled from the spec: `get_plan_dev_duration` is called by
`NodeConfigData` but not declared in src; the spec uses it only as the
scalar `dev_duration` in the `pcy`/`pcm` scaling rules, so it is an
uninterpreted per-chart value here (theorems hold for every value). -/
def RootConfigData.get_plan_dev_duration (root : RootConfigData) (_dev : Option String) : Nat :=
  root.plan_dev_duration

/-- The inner developer loop of `transfer_management_resource` computing one
quarter of demand.  The Rust accumulator is an `f32` advancing in steps of
`0.2`; it is modelled exactly as a count of fifths of a quarter, so adding
`0.2` becomes `acc + 1`.  A non-manager developer with the quarter set adds
one fifth; when the manager does not have the quarter set, the accumulated
value is reset to `0.0` and the loop breaks. -/
def RootConfigData.quarterlyResourceLoop :
    List (String × DeveloperData) → String → Nat → Nat → Nat
  | [], _, _, acc => acc
  | (dev, data) :: rest, manager, q, acc =>
    if dev ≠ manager then
      if data.cells.is_set q then quarterlyResourceLoop rest manager q (acc + 1)
      else quarterlyResourceLoop rest manager q acc
    else
      if !(data.cells.is_set q) then 0
      else quarterlyResourceLoop rest manager q acc

/-- Demand contributed by one quarter, in fifths of a quarter. -/
def RootConfigData.quarterly_resource (devs : List (String × DeveloperData)) (manager : String)
    (q : Nat) : Nat :=
  quarterlyResourceLoop devs manager q 0

/-- The week-boundary developer loop of `transfer_management_resource`: for
every map entry whose key is the manager, `fill_transfer_to` the demanded
quarters from that row into `row`, accumulating the failure count. -/
def RootConfigData.mgmtWeekLoop :
    List (String × DeveloperData) → String → ChartRow → Nat → ChartPeriod →
    Except String (List (String × DeveloperData) × ChartRow × Nat)
  | [], _, row, _, _ => .ok ([], row, 0)
  | (dev, data) :: rest, manager, row, demand, period =>
    if dev == manager then
      match data.cells.fill_transfer_to row demand period with
      | (_, _, .error e) => .error e
      | (cells1, row1, .ok tr) =>
        match mgmtWeekLoop rest manager row1 demand period with
        | .error e => .error e
        | .ok (rest1, row2, f) =>
          .ok ((dev, { data with cells := cells1 }) :: rest1, row2, tr.failed + f)
    else
      match mgmtWeekLoop rest manager row demand period with
      | .error e => .error e
      | .ok (rest1, row2, f) => .ok ((dev, data) :: rest1, row2, f)

/-- The main quarter loop of `transfer_management_resource`.  `weekly` is the
running weekly accumulator in fifths of a quarter; at a week boundary
(`q % 20 == 19`) the demand `weekly_resource.ceil()` becomes
`(weekly + 4) / 5` quarters, transferred within `[q - 19, q]`. -/
def RootConfigData.mgmtQuarterLoop :
    List Nat → List (String × DeveloperData) → String → Nat → ChartRow → Nat → Nat →
    Except String (List (String × DeveloperData) × ChartRow × Nat)
  | [], devs, _, _, row, _, failures => .ok (devs, row, failures)
  | q :: rest, devs, manager, now, row, weekly, failures =>
    if q < now then mgmtQuarterLoop rest devs manager now row weekly failures
    else
      let weekly1 := weekly + quarterly_resource devs manager q
      if q % 20 = 19 then
        match mgmtWeekLoop devs manager row ((weekly1 + 4) / 5) ⟨q - 19, q⟩ with
        | .error e => .error e
        | .ok (devs1, row1, f) => mgmtQuarterLoop rest devs1 manager now row1 0 (failures + f)
      else mgmtQuarterLoop rest devs manager now row weekly1 failures

/-- `RootConfigData::transfer_management_resource`.  The unused
`remaining_period` binding still evaluates
`ChartPeriod::new(now, quarters_in_chart - 1).unwrap()`, which panics when
`weeks == 0` (u32 underflow) or when `now > quarters_in_chart - 1`; both
outcomes are modelled as `none`. -/
def RootConfigData.transfer_management_resource (root : RootConfigData) (row : ChartRow) :
    Option (Except String (RootConfigData × ChartRow)) :=
  let quarters_in_chart := root.get_weeks * 20
  if quarters_in_chart = 0 then none
  else if quarters_in_chart - 1 < root.get_now then none
  else
    let manager := root.manager.getD ""
    match mgmtQuarterLoop (List.range quarters_in_chart) root.developers manager root.get_now
        row 0 0 with
    | .error e => some (.error e)
    | .ok (devs1, row1, total_failures) =>
      if total_failures ≠ 0 then
        some (.error "Failed to allocate days of management resource")
      else some (.ok ({ root with developers := devs1 }, row1))

/-- Per-task data (src/src/nodes/data/mod.rs). -/
structure NodeConfigData where
  cells : ChartRow
  budget : Option Nat
  scheduling : SchedulingStrategy
  resourcing : Option ResourcingStrategy
  managed : Bool
  notes : List String
  dev : Option String
  plan : List PlanEntry
  default_plan : List PlanEntry
  initial_plan : Option Nat
  now_plan : Option Nat
  done : List DoneEntry
  earliest_start : Nat
  latest_end : Nat
  resource_transferred : Bool
deriving DecidableEq, Repr

/-- `NodeConfigData::new`. -/
def NodeConfigData.new (num_cells : Nat) : NodeConfigData where
  cells := ChartRow.new num_cells
  budget := none
  scheduling := .Parallel
  resourcing := none
  managed := true
  notes := []
  dev := none
  plan := []
  default_plan := []
  initial_plan := none
  now_plan := none
  done := []
  earliest_start := 0
  latest_end := num_cells
  resource_transferred := false

/-- `NodeConfigData::add_note`: always succeeds. -/
def NodeConfigData.add_note (node : NodeConfigData) (note : String) :
    NodeConfigData × Except String Unit :=
  ({ node with notes := node.notes ++ [note] }, .ok ())

/-- The scan of `NodeConfigData::get_plan_internal`: remember the value and
suffix of every entry whose `when` is at or before the query time, so the
last qualifying entry in vector order wins. -/
def NodeConfigData.planFold :
    List PlanEntry → Nat → Option Nat × Option String → Option Nat × Option String
  | [], _, acc => acc
  | e :: rest, whenq, acc =>
    if whenq ≥ e.when then planFold rest whenq (some e.plan, e.suffix)
    else planFold rest whenq acc

/-- `NodeConfigData::get_plan_internal`.  The `f32` scaling arithmetic is
modelled exactly in `ℚ`; `20.0 * 52.0 / 12.0` stays the exact rational
`260 / 3`. -/
def NodeConfigData.get_plan_internal (_node : NodeConfigData) (root : RootConfigData)
    (dev : Option String) (whenq : Nat) (vec : List PlanEntry) : Option Nat :=
  match planFold vec whenq (none, none) with
  | (none, _) => none
  | (some plan, found_suffix) =>
    match found_suffix with
    | none => some plan
    | some suffix =>
      let duration := root.get_plan_dev_duration dev
      if suffix = "pcy" then
        some (((plan : ℚ) * (duration : ℚ) / (20 * 52)).ceil.toNat)
      else
        some (((plan : ℚ) * (duration : ℚ) / (20 * 52 / 12)).ceil.toNat)

/-- `NodeConfigData::get_plan`. -/
def NodeConfigData.get_plan (node : NodeConfigData) (root : RootConfigData)
    (dev : Option String) (whenq : Nat) : Option Nat :=
  node.get_plan_internal root dev whenq node.plan

/-- `NodeConfigData::get_default_plan`. -/
def NodeConfigData.get_default_plan (node : NodeConfigData) (root : RootConfigData)
    (dev : Option String) (whenq : Nat) : Option Nat :=
  node.get_plan_internal root dev whenq node.default_plan

/-- The common tail of `transfer_future_resource`: write the mutated
developer row back, then fail if any quarters could not be transferred.
On the failure path the source also bumps `dev_data.unallocated`; the
mutation is dropped here together with the rest of the errored state. -/
def NodeConfigData.finishTransfer (node : NodeConfigData) (root : RootConfigData)
    (dev : String) (dev_data : DeveloperData) (tr : TransferResult) :
    Option (Except String (NodeConfigData × RootConfigData)) :=
  if tr.failed ≠ 0 then some (.error "days unallocated")
  else some (.ok (node, root.set_dev_data dev dev_data))

/-- `NodeConfigData::transfer_future_resource`.  `Option.none` models the
panics of the two `unwrap`ed `ChartPeriod::new` calls and the u32 underflow
of `reverse_fill_transfer_to` reached from the BackLoad and ProdSFR-part-2
arms.  The `f32` pro-rata arithmetic is modelled exactly in `ℚ`; the Rust
saturating `as u32` cast of `time_to_spend` becomes `.floor.toNat`. -/
def NodeConfigData.transfer_future_resource (node : NodeConfigData) (root : RootConfigData)
    (resourcing : Option ResourcingStrategy) :
    Option (Except String (NodeConfigData × RootConfigData)) :=
  if node.resource_transferred then some (.ok (node, root))
  else if node.now_plan.isNone then some (.ok (node, root))
  else
    let plan := node.now_plan.getD 0
    match node.dev with
    | none => some (.ok (node, root))
    | some dev =>
      let quarters_in_chart := root.get_weeks * 20
      if quarters_in_chart = 0 then none
      else
        let chart_period : ChartPeriod := ⟨0, quarters_in_chart - 1⟩
        let quarters_left_in_plan :=
          if plan > node.cells.count_range chart_period then
            plan - node.cells.count_range chart_period
          else 0
        let resource_period := (root.get_dev_period dev).getD chart_period
        if quarters_in_chart - 1 < root.get_now then none
        else
          match ChartPeriod.intersect ⟨root.get_now, quarters_in_chart - 1⟩ resource_period with
          | none =>
            if quarters_left_in_plan = 0 then some (.ok (node, root))
            else some (.error "Failed to write days because the dev is not available.")
          | some remaining_period =>
            match root.get_dev_data dev with
            | none => some (.ok (node, root))
            | some dev_data =>
              let r := if resourcing.isNone then node.resourcing else resourcing
              match r with
              | some .Management =>
                some (.ok (node, root))
              | some .SmearProRata =>
                let time_per_quarter : ℚ := (plan : ℚ) / (resource_period.length : ℚ)
                let time_to_spend : ℚ :=
                  (((remaining_period.length : ℚ) * time_per_quarter).ceil : ℚ)
                    - (node.cells.count_range remaining_period : ℚ)
                if time_to_spend < -(1 / 100 : ℚ) then
                  some (.error "Over-committed; update plan")
                else
                  match ChartRow.smear_transfer_to dev_data.cells node.cells
                      time_to_spend.floor.toNat remaining_period with
                  | (_, _, .error e) => some (.error e)
                  | (devCells1, nodeCells1, .ok tr) =>
                    finishTransfer
                      { node with cells := nodeCells1, resource_transferred := true }
                      root dev { dev_data with cells := devCells1 } tr
              | some .SmearRemaining =>
                match ChartRow.smear_transfer_to dev_data.cells node.cells
                    quarters_left_in_plan remaining_period with
                | (_, _, .error e) => some (.error e)
                | (devCells1, nodeCells1, .ok tr) =>
                  finishTransfer
                    { node with cells := nodeCells1, resource_transferred := true }
                    root dev { dev_data with cells := devCells1 } tr
              | some .FrontLoad =>
                match ChartRow.fill_transfer_to dev_data.cells node.cells
                    quarters_left_in_plan remaining_period with
                | (_, _, .error e) => some (.error e)
                | (devCells1, nodeCells1, .ok tr) =>
                  finishTransfer
                    { node with cells := nodeCells1, resource_transferred := true }
                    root dev { dev_data with cells := devCells1 } tr
              | some .BackLoad =>
                match ChartRow.reverse_fill_transfer_to dev_data.cells node.cells
                    quarters_left_in_plan remaining_period with
                | none => none
                | some (_, _, .error e) => some (.error e)
                | some (devCells1, nodeCells1, .ok tr) =>
                  finishTransfer
                    { node with cells := nodeCells1, resource_transferred := true }
                    root dev { dev_data with cells := devCells1 } tr
              | some .ProdSFR =>
                let smeared_resource := quarters_left_in_plan * 20 / 100
                match ChartRow.smear_transfer_to dev_data.cells node.cells
                    smeared_resource remaining_period with
                | (_, _, .error e) => some (.error e)
                | (devCells1, nodeCells1, .ok tr) =>
                  finishTransfer { node with cells := nodeCells1 }
                    root dev { dev_data with cells := devCells1 } tr
              | some .ProdSFR_part2 =>
                match ChartRow.reverse_fill_transfer_to dev_data.cells node.cells
                    quarters_left_in_plan remaining_period with
                | none => none
                | some (_, _, .error e) => some (.error e)
                | some (devCells1, nodeCells1, .ok tr) =>
                  finishTransfer
                    { node with cells := nodeCells1, resource_transferred := true }
                    root dev { dev_data with cells := devCells1 } tr
              | none => some (.error "ResourcingStrategy not specified!")

/-- `NodeConfigData::transfer_future_smear`. -/
def NodeConfigData.transfer_future_smear (node : NodeConfigData) (root : RootConfigData) :
    Option (Except String (NodeConfigData × RootConfigData)) :=
  match node.resourcing with
  | none => some (.ok (node, root))
  | some r =>
    if r = .SmearRemaining ∨ r = .SmearProRata ∨ r = .ProdSFR then
      node.transfer_future_resource root (some r)
    else some (.ok (node, root))

/-- `NodeConfigData::transfer_future_frontload`. -/
def NodeConfigData.transfer_future_frontload (node : NodeConfigData) (root : RootConfigData) :
    Option (Except String (NodeConfigData × RootConfigData)) :=
  match node.resourcing with
  | none => some (.ok (node, root))
  | some r =>
    if r = .FrontLoad then node.transfer_future_resource root (some r)
    else some (.ok (node, root))

/-- `NodeConfigData::transfer_future_backload`. -/
def NodeConfigData.transfer_future_backload (node : NodeConfigData) (root : RootConfigData) :
    Option (Except String (NodeConfigData × RootConfigData)) :=
  match node.resourcing with
  | none => some (.ok (node, root))
  | some r =>
    if r = .BackLoad then node.transfer_future_resource root (some .BackLoad)
    else if r = .ProdSFR then node.transfer_future_resource root (some .ProdSFR_part2)
    else some (.ok (node, root))

/-- `NodeConfigData::transfer_future_unmanaged_resource`. -/
def NodeConfigData.transfer_future_unmanaged_resource (node : NodeConfigData)
    (root : RootConfigData) : Option (Except String (NodeConfigData × RootConfigData)) :=
  if node.managed then some (.ok (node, root))
  else node.transfer_future_resource root none

/-- `NodeConfigData::transfer_future_remaining_resource`. -/
def NodeConfigData.transfer_future_remaining_resource (node : NodeConfigData)
    (root : RootConfigData) : Option (Except String (NodeConfigData × RootConfigData)) :=
  node.transfer_future_resource root none

/-- `NodeConfigData::transfer_future_management_resource`.  Note that unlike
`transfer_future_resource` it never consults `resource_transferred` or
`now_plan`; it latches the flag after a successful (or skipped) transfer. -/
def NodeConfigData.transfer_future_management_resource (node : NodeConfigData)
    (root : RootConfigData) : Option (Except String (NodeConfigData × RootConfigData)) :=
  match node.resourcing with
  | some .Management =>
    match node.dev with
    | some dev =>
      match root.get_manager with
      | some mgr =>
        if mgr ≠ dev then some (.error "not the configured manager")
        else
          match root.transfer_management_resource node.cells with
          | none => none
          | some (.error e) => some (.error e)
          | some (.ok (root1, cells1)) =>
            some (.ok ({ node with cells := cells1, resource_transferred := true }, root1))
      | none => some (.error "No manager defined in global config")
    | none => some (.ok ({ node with resource_transferred := true }, root))
  | _ => some (.ok (node, root))

/-- `generate_error_html` (src/src/web.rs): flatten an error chain into one
string; the optional backtrace attachment is environment-dependent and not
modelled. -/
def generate_error_html (e : List String) : String :=
  match e with
  | [] => "Error: "
  | first :: rest =>
    rest.foldl (fun acc m => acc ++ "<br>caused by: " ++ m) ("Error: " ++ first)

/-- `call_on_children` (src/src/web.rs): run a phase function on every
non-root descendant; when it errors on a node, record the flattened chain as
a note on that node (through `add_note`, whose own `Result` is propagated
with `?`) and keep iterating.  When the root carries no `root_data` the loop
body never runs. -/
def call_on_children
    (node_fn : NodeConfigData → RootConfigData →
      NodeConfigData × RootConfigData × Except (List String) Unit) :
    List NodeConfigData → Option RootConfigData →
    Except String (List NodeConfigData × Option RootConfigData)
  | nodes, none => .ok (nodes, none)
  | [], some rd => .ok ([], some rd)
  | n :: rest, some rd =>
    match node_fn n rd with
    | (n1, rd1, .ok ()) =>
      match call_on_children node_fn rest (some rd1) with
      | .error e => .error e
      | .ok (ns, rdf) => .ok (n1 :: ns, rdf)
    | (n1, rd1, .error e) =>
      match n1.add_note (generate_error_html e) with
      | (_, .error e2) => .error e2
      | (n2, .ok ()) =>
        match call_on_children node_fn rest (some rd1) with
        | .error e3 => .error e3
        | .ok (ns, rdf) => .ok (n2 :: ns, rdf)

/-- Reference for C9, following the spec: every node is processed, an error
is recorded as a note on the offending node, and iteration always reaches
the end of the descendant list. -/
def call_on_children_total
    (node_fn : NodeConfigData → RootConfigData →
      NodeConfigData × RootConfigData × Except (List String) Unit) :
    List NodeConfigData → RootConfigData → List NodeConfigData × RootConfigData
  | [], rd => ([], rd)
  | n :: rest, rd =>
    let step := node_fn n rd
    let n2 :=
      match step.2.2 with
      | .ok () => step.1
      | .error e => (step.1.add_note (generate_error_html e)).1
    let tail := call_on_children_total node_fn rest step.2.1
    (n2 :: tail.1, tail.2)

/-- Concrete scenario for the C4 counterexample: the state after a first
successful management transfer.  The manager row has lost cells 0-3 to the
node, the node carries them, and `resource_transferred` is already latched. -/
def c4exRoot : RootConfigData :=
  ⟨1, 0, some "m",
    [("m", ⟨((ChartRow.new 20).set_range ⟨4, 19⟩).1, ⟨0, 19⟩, 0⟩),
     ("d", ⟨((ChartRow.new 20).set_range ⟨0, 19⟩).1, ⟨0, 19⟩, 0⟩)], 0⟩

def c4exNode : NodeConfigData :=
  { NodeConfigData.new 20 with
      cells := ((ChartRow.new 20).set_range ⟨0, 3⟩).1
      resourcing := some .Management
      dev := some "m"
      resource_transferred := true }

/-- The transfer contract of C1 (as amended): a successful transfer moved
exactly the cells of some list `M`, each of which was set in the source and
unset in the destination beforehand; afterwards exactly those cells have
moved, every other cell of both rows is unchanged, and the counters add up. -/
def TransferContract (self dest : ChartRow) (count : Nat) (self1 dest1 : ChartRow)
    (rc : TransferResult) : Prop :=
  ∃ M : List Nat,
    rc.transferred + rc.failed = count ∧
    rc.transferred = M.length ∧
    (∀ c ∈ M, self.is_set c = true ∧ dest.is_set c = false) ∧
    (∀ c, self1.is_set c = (self.is_set c && !(M.contains c))) ∧
    (∀ c, dest1.is_set c = (dest.is_set c || M.contains c)) ∧
    self1.num_cells = self.num_cells ∧ dest1.num_cells = dest.num_cells ∧
    self1.count + rc.transferred = self.count

/-- No cell at or beyond `num_cells` is set: the row invariant of C8. -/
def ChartRow.inv (row : ChartRow) : Prop :=
  ∀ c, row.num_cells ≤ c → row.is_set c = false

/-- Rows reachable through the public `ChartRow` operations (C8): freshly
created rows and anything produced from reachable rows by `set`, `unset`,
`set_range` or either side of the three transfer operations. -/
inductive ChartRow.Reachable : ChartRow → Prop
  | new (n : Nat) : Reachable (ChartRow.new n)
  | set (row : ChartRow) (cell : Nat) : Reachable row → Reachable (row.set cell).1
  | unset (row : ChartRow) (cell : Nat) : Reachable row → Reachable (row.unset cell).1
  | set_range (row : ChartRow) (period : ChartPeriod) :
      Reachable row → Reachable (row.set_range period).1
  | fill_src (self dest : ChartRow) (count : Nat) (period : ChartPeriod) :
      Reachable self → Reachable dest →
      Reachable (self.fill_transfer_to dest count period).1
  | fill_dest (self dest : ChartRow) (count : Nat) (period : ChartPeriod) :
      Reachable self → Reachable dest →
      Reachable (self.fill_transfer_to dest count period).2.1
  | reverse_src (self dest : ChartRow) (count : Nat) (period : ChartPeriod)
      (out : ChartRow × ChartRow × Except String TransferResult) :
      Reachable self → Reachable dest →
      self.reverse_fill_transfer_to dest count period = some out → Reachable out.1
  | reverse_dest (self dest : ChartRow) (count : Nat) (period : ChartPeriod)
      (out : ChartRow × ChartRow × Except String TransferResult) :
      Reachable self → Reachable dest →
      self.reverse_fill_transfer_to dest count period = some out → Reachable out.2.1
  | smear_src (self dest : ChartRow) (count : Nat) (period : ChartPeriod) :
      Reachable self → Reachable dest →
      Reachable (self.smear_transfer_to dest count period).1
  | smear_dest (self dest : ChartRow) (count : Nat) (period : ChartPeriod) :
      Reachable self → Reachable dest →
      Reachable (self.smear_transfer_to dest count period).2.1

/-! Helper lemmas about list indexing. -/

theorem getD_set_self : ∀ (l : List Nat) (i v : Nat), i < l.length → (l.set i v).getD i 0 = v := by
  intro l
  induction l with
  | nil => intro i v h; simp at h
  | cons a t ih =>
    intro i v h
    cases i with
    | zero => rfl
    | succ j => exact ih j v (by simpa using h)

theorem getD_set_ne : ∀ (l : List Nat) (i j v : Nat), i ≠ j →
    (l.set i v).getD j 0 = l.getD j 0 := by
  intro l
  induction l with
  | nil => intro i j v _; simp [List.set]
  | cons a t ih =>
    intro i j v hne
    cases i with
    | zero =>
      cases j with
      | zero => exact absurd rfl hne
      | succ k => rfl
    | succ i1 =>
      cases j with
      | zero => rfl
      | succ k => exact ih i1 k v (by omega)

theorem getD_append_replicate_zero (l : List Nat) (k j : Nat) :
    (l ++ List.replicate k 0).getD j 0 = l.getD j 0 := by
  by_cases h : j < l.length
  · exact List.getD_append l (List.replicate k 0) 0 j h
  · rw [List.getD_eq_default l 0 (by omega)]
    by_cases h2 : j < l.length + k
    · rw [List.getD_append_right _ _ _ _ (by omega)]
      have h3 : j - l.length < k := by omega
      simp [List.getD_eq_getElem?_getD, List.getElem?_replicate, h3]
    · rw [List.getD_eq_default _ 0 (by simp; omega)]

theorem getD_mem_of_lt (l : List Nat) (i : Nat) (h : i < l.length) : l.getD i 0 ∈ l := by
  rw [List.getD_eq_getElem l 0 h]
  exact List.getElem_mem h

/-! Helper lemmas about `is_set`, `set`, `unset`. -/

theorem shiftLeft_one_eq (b : Nat) : 1 <<< b = 2 ^ b := by
  rw [Nat.shiftLeft_eq, one_mul]

theorem testBit_255 : ∀ j, j < 8 → Nat.testBit 255 j = true := by decide

theorem ChartRow.is_set_eq_testBit (row : ChartRow) (c : Nat) :
    row.is_set c = (row.cells.getD (c / 8) 0).testBit (c % 8) := by
  unfold ChartRow.is_set
  simp only [shiftLeft_one_eq]
  split
  next hlt =>
    rw [List.getD_eq_default _ _ (by omega)]
    simp [Nat.zero_testBit]
  next hge =>
    rw [Nat.and_two_pow]
    cases hb : (row.cells.getD (c / 8) 0).testBit (c % 8) <;> simp [hb]
    intro hcontra
    have := Nat.two_pow_pos (c % 8)
    omega

theorem ChartRow.is_set_false_of_len (row : ChartRow) (c : Nat)
    (h : row.cells.length ≤ c / 8) : row.is_set c = false := by
  rw [is_set_eq_testBit, List.getD_eq_default _ _ h, Nat.zero_testBit]

theorem ChartRow.set_num_cells (row : ChartRow) (cell : Nat) :
    ((row.set cell).1).num_cells = row.num_cells := by
  unfold ChartRow.set
  split <;> rfl

theorem ChartRow.unset_num_cells (row : ChartRow) (cell : Nat) :
    ((row.unset cell).1).num_cells = row.num_cells := by
  simp only [ChartRow.unset]
  split
  · rfl
  · split <;> rfl

theorem ChartRow.set_ok_lt {row : ChartRow} {cell : Nat} {u : Unit}
    (h : (row.set cell).2 = .ok u) : cell < row.num_cells := by
  unfold ChartRow.set at h
  split at h
  · cases h
  next hge => omega

theorem ChartRow.unset_ok_lt {row : ChartRow} {cell : Nat} {u : Unit}
    (h : (row.unset cell).2 = .ok u) : cell < row.num_cells := by
  unfold ChartRow.unset at h
  split at h
  · cases h
  next hge => omega

theorem ChartRow.set_err_of_ge (row : ChartRow) (cell : Nat) (h : row.num_cells ≤ cell) :
    (row.set cell).1 = row ∧ (row.set cell).2.isOk = false := by
  unfold ChartRow.set
  rw [if_pos (by omega)]
  exact ⟨rfl, rfl⟩

theorem ChartRow.unset_err_of_ge (row : ChartRow) (cell : Nat) (h : row.num_cells ≤ cell) :
    (row.unset cell).1 = row ∧ (row.unset cell).2.isOk = false := by
  unfold ChartRow.unset
  rw [if_pos (by omega)]
  exact ⟨rfl, rfl⟩

theorem div_mod_eight_eq {a b : Nat} (hd : a / 8 = b / 8) (hm : a % 8 = b % 8) : a = b := by
  omega

theorem ChartRow.set_is_set (row : ChartRow) (cell : Nat) (h : cell < row.num_cells) (c : Nat) :
    ((row.set cell).1).is_set c = (c == cell || row.is_set c) := by
  unfold ChartRow.set
  rw [if_neg (by omega)]
  rw [is_set_eq_testBit, is_set_eq_testBit]
  simp only [shiftLeft_one_eq]
  set padded := row.cells ++ List.replicate (cell / 8 + 1 - row.cells.length) 0 with hpad
  have hlen : cell / 8 < padded.length := by
    simp only [hpad, List.length_append, List.length_replicate]
    omega
  by_cases hb : c / 8 = cell / 8
  · rw [hb, getD_set_self padded (cell / 8) _ hlen]
    rw [hpad, getD_append_replicate_zero]
    rw [Nat.testBit_lor, Nat.testBit_two_pow]
    by_cases hc : c = cell
    · subst hc
      simp
    · have hm : ¬ cell % 8 = c % 8 := fun hmm => hc (div_mod_eight_eq hb hmm.symm)
      simp [hm, hc, hb]
  · rw [getD_set_ne padded (cell / 8) (c / 8) _ (fun x => hb x.symm)]
    rw [hpad, getD_append_replicate_zero]
    have hc : ¬ c = cell := fun x => hb (by rw [x])
    simp [hc]

theorem ChartRow.unset_is_set (row : ChartRow) (cell : Nat) (h : cell < row.num_cells) (c : Nat) :
    ((row.unset cell).1).is_set c = (!(c == cell) && row.is_set c) := by
  simp only [ChartRow.unset]
  rw [if_neg (by omega)]
  split
  next hgt =>
    rw [is_set_eq_testBit, is_set_eq_testBit]
    simp only [shiftLeft_one_eq]
    by_cases hb : c / 8 = cell / 8
    · rw [hb, getD_set_self row.cells (cell / 8) _ hgt]
      rw [Nat.testBit_land, Nat.testBit_xor, Nat.testBit_two_pow,
        testBit_255 (c % 8) (Nat.mod_lt _ (by decide))]
      by_cases hc : c = cell
      · subst hc
        simp
      · have hm : ¬ cell % 8 = c % 8 := fun hmm => hc (div_mod_eight_eq hb hmm.symm)
        simp [hm, hc, Bool.and_comm]
    · rw [getD_set_ne row.cells (cell / 8) (c / 8) _ (fun x => hb x.symm)]
      have hc : ¬ c = cell := fun x => hb (by rw [x])
      simp [hc]
  next hle =>
    have hcs : row.is_set cell = false := is_set_false_of_len row cell (by omega)
    by_cases hc : c = cell
    · subst hc; simp [hcs]
    · simp [hc]

/-! WF8 preservation. -/

theorem ChartRow.WF8_set (row : ChartRow) (cell : Nat) (hw : row.WF8) :
    ((row.set cell).1).WF8 := by
  simp only [ChartRow.set]
  split
  · exact hw
  next hlt =>
    intro b hb
    simp only at hb
    rcases List.mem_or_eq_of_mem_set hb with hmem | heq
    · rcases List.mem_append.mp hmem with h1 | h2
      · exact hw b h1
      · rw [List.eq_of_mem_replicate h2]; decide
    · subst heq
      have hpadlt : 2 ^ (cell % 8) < 2 ^ 8 :=
        Nat.pow_lt_pow_right (by decide) (Nat.mod_lt _ (by decide))
    -- the padded byte is either an original byte or a padding zero
      have hbyte :
          (row.cells ++ List.replicate (cell / 8 + 1 - row.cells.length) 0).getD (cell / 8) 0
            < 256 := by
        rw [getD_append_replicate_zero]
        by_cases hlen : cell / 8 < row.cells.length
        · exact hw _ (getD_mem_of_lt row.cells (cell / 8) hlen)
        · rw [List.getD_eq_default _ _ (by omega)]; decide
      rw [shiftLeft_one_eq]
      have hbyte2 : (row.cells ++ List.replicate (cell / 8 + 1 - row.cells.length) 0).getD
          (cell / 8) 0 < 2 ^ 8 := by simpa using hbyte
      have := Nat.or_lt_two_pow hbyte2 hpadlt
      simpa using this

theorem ChartRow.WF8_unset (row : ChartRow) (cell : Nat) (hw : row.WF8) :
    ((row.unset cell).1).WF8 := by
  simp only [ChartRow.unset]
  split
  · exact hw
  split
  · intro b hb
    simp only at hb
    rcases List.mem_or_eq_of_mem_set hb with hmem | heq
    · exact hw b hmem
    · subst heq
      calc row.cells.getD (cell / 8) 0 &&& (255 ^^^ 1 <<< (cell % 8))
          ≤ row.cells.getD (cell / 8) 0 := Nat.and_le_left
        _ < 256 := by
            by_cases hlen : cell / 8 < row.cells.length
            · exact hw _ (getD_mem_of_lt row.cells (cell / 8) hlen)
            · rw [List.getD_eq_default _ _ (by omega)]; decide
  · exact hw

/-! Popcount and `count` lemmas. -/

theorem popcount_eq_countP : ∀ (k n : Nat), n < 2 ^ k →
    popcount n = (List.range k).countP (fun i => n.testBit i) := by
  intro k
  induction k with
  | zero =>
    intro n hn
    interval_cases n
    simp [popcount]
  | succ k ih =>
    intro n hn
    by_cases h0 : n = 0
    · subst h0
      simp [popcount, Nat.zero_testBit, List.countP_eq_zero]
    · rw [popcount, dif_neg h0]
      have hdiv : n / 2 < 2 ^ k := by
        have h2 : 2 ^ (k + 1) = 2 * 2 ^ k := by ring
        omega
      have hcomp : (List.range k).countP ((fun i => n.testBit i) ∘ Nat.succ)
          = (List.range k).countP (fun i => (n / 2).testBit i) := by
        apply List.countP_congr
        intro i _
        simp [Function.comp, Nat.testBit_succ]
      rw [List.range_succ_eq_map, List.countP_cons, List.countP_map, hcomp,
        ← ih (n / 2) hdiv, Nat.testBit_zero]
      rcases Nat.mod_two_eq_zero_or_one n with hm | hm <;> simp [hm] <;> omega

theorem countP_or_single :
    ∀ (l : List Nat) (f : Nat → Bool) (i : Nat), l.Nodup → i ∈ l → f i = false →
      l.countP (fun j => f j || i == j) = l.countP f + 1 := by
  intro l
  induction l with
  | nil => intro f i _ hmem _; simp at hmem
  | cons a t ih =>
    intro f i hnd hmem hfi
    rw [List.countP_cons, List.countP_cons]
    rcases List.mem_cons.mp hmem with heq | hmemt
    · subst heq
      have hnoti : i ∉ t := (List.nodup_cons.mp hnd).1
      have : t.countP (fun j => f j || i == j) = t.countP f := by
        apply List.countP_congr
        intro j hj
        have : ¬ i = j := fun x => hnoti (x ▸ hj)
        simp [this]
      rw [this, hfi]
      simp
    · have hne : a ≠ i := by
        intro x
        exact (List.nodup_cons.mp hnd).1 (x ▸ hmemt)
      rw [ih f i (List.nodup_cons.mp hnd).2 hmemt hfi]
      have : ¬ i = a := fun x => hne x.symm
      simp [this]
      omega

theorem countP_and_single :
    ∀ (l : List Nat) (f : Nat → Bool) (i : Nat), l.Nodup → i ∈ l → f i = true →
      l.countP f = l.countP (fun j => f j && !(i == j)) + 1 := by
  intro l
  induction l with
  | nil => intro f i _ hmem _; simp at hmem
  | cons a t ih =>
    intro f i hnd hmem hfi
    rw [List.countP_cons, List.countP_cons]
    rcases List.mem_cons.mp hmem with heq | hmemt
    · subst heq
      have hnoti : i ∉ t := (List.nodup_cons.mp hnd).1
      have : t.countP (fun j => f j && !(i == j)) = t.countP f := by
        apply List.countP_congr
        intro j hj
        have : ¬ i = j := fun x => hnoti (x ▸ hj)
        simp [this]
      rw [this, hfi]
      simp
    · have hne : a ≠ i := by
        intro x
        exact (List.nodup_cons.mp hnd).1 (x ▸ hmemt)
      rw [ih f i (List.nodup_cons.mp hnd).2 hmemt hfi]
      have : ¬ i = a := fun x => hne x.symm
      simp [this]
      omega

theorem popcount_lor_two_pow (b i : Nat) (hb : b < 256) (hi : i < 8)
    (h : b.testBit i = false) : popcount (b ||| 2 ^ i) = popcount b + 1 := by
  have hor : b ||| 2 ^ i < 256 := by
    have h2 : 2 ^ i < 2 ^ 8 := Nat.pow_lt_pow_right (by decide) hi
    have hb2 : b < 2 ^ 8 := by simpa using hb
    have := Nat.or_lt_two_pow hb2 h2
    simpa using this
  rw [popcount_eq_countP 8 _ (by simpa using hor), popcount_eq_countP 8 b (by simpa using hb)]
  have hcong : (List.range 8).countP (fun j => (b ||| 2 ^ i).testBit j)
      = (List.range 8).countP (fun j => b.testBit j || i == j) := by
    apply List.countP_congr
    intro j _
    rw [Nat.testBit_lor, Nat.testBit_two_pow]
    by_cases hij : i = j <;> simp [hij]
  rw [hcong]
  exact countP_or_single (List.range 8) _ i (List.nodup_range 8) (List.mem_range.mpr hi) h

theorem popcount_and_mask (b i : Nat) (hb : b < 256) (hi : i < 8)
    (h : b.testBit i = true) :
    popcount b = popcount (b &&& (255 ^^^ 2 ^ i)) + 1 := by
  have hand : b &&& (255 ^^^ 2 ^ i) < 256 :=
    Nat.lt_of_le_of_lt Nat.and_le_left hb
  rw [popcount_eq_countP 8 b (by simpa using hb),
    popcount_eq_countP 8 _ (by simpa using hand)]
  have hcong : (List.range 8).countP (fun j => (b &&& (255 ^^^ 2 ^ i)).testBit j)
      = (List.range 8).countP (fun j => b.testBit j && !(i == j)) := by
    apply List.countP_congr
    intro j hj
    rw [Nat.testBit_land, Nat.testBit_xor, Nat.testBit_two_pow,
      testBit_255 j (List.mem_range.mp hj)]
    by_cases hij : i = j <;> simp [hij]
  rw [hcong]
  exact countP_and_single (List.range 8) _ i (List.nodup_range 8) (List.mem_range.mpr hi) h

theorem sum_map_popcount_set :
    ∀ (l : List Nat) (k v : Nat), k < l.length →
      ((l.set k v).map popcount).sum + popcount (l.getD k 0)
        = (l.map popcount).sum + popcount v := by
  intro l
  induction l with
  | nil => intro k v h; simp at h
  | cons a t ih =>
    intro k v h
    cases k with
    | zero =>
      simp [List.set]
      omega
    | succ j =>
      have := ih j v (by simpa using h)
      simp only [List.set, List.map_cons, List.sum_cons, List.getD_cons_succ]
      omega

theorem sum_map_popcount_append_replicate (l : List Nat) (k : Nat) :
    ((l ++ List.replicate k 0).map popcount).sum = (l.map popcount).sum := by
  have hz : popcount 0 = 0 := by simp [popcount]
  rw [List.map_append, List.sum_append]
  have : ((List.replicate k 0).map popcount).sum = 0 := by
    rw [List.map_replicate, hz]
    simp
  omega

theorem ChartRow.count_set (row : ChartRow) (cell : Nat) (hw : row.WF8)
    (h : cell < row.num_cells) (hnot : row.is_set cell = false) :
    ((row.set cell).1).count = row.count + 1 := by
  simp only [ChartRow.set]
  rw [if_neg (by omega)]
  simp only [ChartRow.count]
  set padded := row.cells ++ List.replicate (cell / 8 + 1 - row.cells.length) 0 with hpad
  have hlen : cell / 8 < padded.length := by
    simp only [hpad, List.length_append, List.length_replicate]
    omega
  have hpb : padded.getD (cell / 8) 0 = row.cells.getD (cell / 8) 0 := by
    rw [hpad, getD_append_replicate_zero]
  have hblt : padded.getD (cell / 8) 0 < 256 := by
    rw [hpb]
    by_cases hl2 : cell / 8 < row.cells.length
    · exact hw _ (getD_mem_of_lt row.cells (cell / 8) hl2)
    · rw [List.getD_eq_default _ _ (by omega)]; decide
  have htb : (padded.getD (cell / 8) 0).testBit (cell % 8) = false := by
    rw [hpb, ← is_set_eq_testBit]
    exact hnot
  have hsum := sum_map_popcount_set padded (cell / 8)
    (padded.getD (cell / 8) 0 ||| 1 <<< (cell % 8)) hlen
  rw [shiftLeft_one_eq] at hsum ⊢
  rw [popcount_lor_two_pow _ _ hblt (Nat.mod_lt _ (by decide)) htb] at hsum
  have hpadsum : (padded.map popcount).sum = (row.cells.map popcount).sum := by
    rw [hpad]
    exact sum_map_popcount_append_replicate row.cells _
  omega

theorem ChartRow.count_unset (row : ChartRow) (cell : Nat) (hw : row.WF8)
    (h : cell < row.num_cells) (hset : row.is_set cell = true) :
    ((row.unset cell).1).count + 1 = row.count := by
  have hlen : cell / 8 < row.cells.length := by
    by_contra hcon
    rw [is_set_false_of_len row cell (by omega)] at hset
    cases hset
  simp only [ChartRow.unset]
  rw [if_neg (by omega), if_pos (by omega)]
  simp only [ChartRow.count]
  have hblt : row.cells.getD (cell / 8) 0 < 256 :=
    hw _ (getD_mem_of_lt row.cells (cell / 8) hlen)
  have htb : (row.cells.getD (cell / 8) 0).testBit (cell % 8) = true := by
    rw [← is_set_eq_testBit]
    exact hset
  have hsum := sum_map_popcount_set row.cells (cell / 8)
    (row.cells.getD (cell / 8) 0 &&& (255 ^^^ 1 <<< (cell % 8))) hlen
  rw [shiftLeft_one_eq] at hsum ⊢
  have hpc := popcount_and_mask _ _ hblt (Nat.mod_lt _ (by decide)) htb
  omega

/-! The transfer-loop contract inductions. -/

/-- The conclusion of one successful loop step or loop run, relative to the
starting rows and counter. -/
def LoopContract (self dest : ChartRow) (rc : TransferResult) (self1 dest1 : ChartRow)
    (rc1 : TransferResult) : Prop :=
  ∃ M : List Nat,
    rc1.transferred + rc1.failed = rc.transferred + rc.failed ∧
    rc1.transferred = rc.transferred + M.length ∧
    (∀ c ∈ M, self.is_set c = true ∧ dest.is_set c = false) ∧
    (∀ c, self1.is_set c = (self.is_set c && !(M.contains c))) ∧
    (∀ c, dest1.is_set c = (dest.is_set c || M.contains c)) ∧
    self1.num_cells = self.num_cells ∧ dest1.num_cells = dest.num_cells ∧
    self1.WF8 ∧ dest1.WF8 ∧
    self1.count + M.length = self.count

/-- Characterisation of a successful `TransferResult::transfer`: it requires
something left to transfer, moves one unit from `failed` to `transferred`,
and touches no other counter. -/
theorem TransferResult.transfer_ok {rc : TransferResult} {cell : Nat} {rc1 : TransferResult}
    (h : rc.transfer cell = .ok rc1) :
    rc.failed ≠ 0 ∧ rc1.failed = rc.failed - 1 ∧ rc1.transferred = rc.transferred + 1 := by
  unfold TransferResult.transfer at h
  by_cases h0 : rc.failed = 0
  · rw [if_pos h0] at h; cases h
  · rw [if_neg h0] at h
    refine ⟨h0, ?_⟩
    rcases rc with ⟨e1, l1, t1, f1⟩
    cases e1 <;> cases l1 <;> simp only at h <;> try split_ifs at h
    all_goals try simp only at h
    all_goals try split_ifs at h
    all_goals (cases h; exact ⟨rfl, rfl⟩)

theorem LoopContract.refl (self dest : ChartRow) (rc : TransferResult)
    (hw1 : self.WF8) (hw2 : dest.WF8) : LoopContract self dest rc self dest rc := by
  refine ⟨[], rfl, by simp, by simp, ?_, ?_, rfl, rfl, hw1, hw2, by simp⟩
  · intro c; simp
  · intro c; simp

/-- A single successful transfer step extends a contract by one cell. -/
theorem LoopContract.step {self dest s1 d1 : ChartRow} {rc rcm : TransferResult} {cell : Nat}
    (hw1 : self.WF8) (hw2 : dest.WF8)
    (hcs : self.is_set cell = true) (hcd : dest.is_set cell = false)
    (hu : self.unset cell = (s1, Except.ok ()))
    (hsd : dest.set cell = (d1, Except.ok ()))
    (ht : rc.transfer cell = .ok rcm) :
    LoopContract self dest rc s1 d1 rcm ∧ s1.WF8 ∧ d1.WF8 := by
  have hlt : cell < self.num_cells := ChartRow.unset_ok_lt (by rw [hu])
  have hltd : cell < dest.num_cells := ChartRow.set_ok_lt (by rw [hsd])
  have hs1 : (self.unset cell).1 = s1 := by rw [hu]
  have hd1 : (dest.set cell).1 = d1 := by rw [hsd]
  obtain ⟨hne, hfm, htr⟩ := TransferResult.transfer_ok ht
  have hS : ∀ c, s1.is_set c = (!(c == cell) && self.is_set c) := fun c => by
    rw [← hs1]; exact ChartRow.unset_is_set self cell hlt c
  have hD : ∀ c, d1.is_set c = (c == cell || dest.is_set c) := fun c => by
    rw [← hd1]; exact ChartRow.set_is_set dest cell hltd c
  have hSW : s1.WF8 := hs1 ▸ ChartRow.WF8_unset self cell hw1
  have hDW : d1.WF8 := hd1 ▸ ChartRow.WF8_set dest cell hw2
  refine ⟨⟨[cell], by omega, by simpa using htr, ?_, ?_, ?_, ?_, ?_, hSW, hDW, ?_⟩, hSW, hDW⟩
  · intro c hc
    rcases List.mem_singleton.mp hc with rfl
    exact ⟨hcs, hcd⟩
  · intro c
    rw [hS c]
    by_cases hcc : c = cell <;> simp [hcc]
  · intro c
    rw [hD c]
    by_cases hcc : c = cell <;> simp [hcc]
  · rw [← hs1]; exact ChartRow.unset_num_cells self cell
  · rw [← hd1]; exact ChartRow.set_num_cells dest cell
  · have := hs1 ▸ ChartRow.count_unset self cell hw1 hlt hcs
    simpa using this

/-- Contracts compose: running further from an intermediate state extends the
moved-cell list. -/
theorem LoopContract.comp {self dest s1 d1 s2 d2 : ChartRow} {rc rcm rc2 : TransferResult}
    (h1 : LoopContract self dest rc s1 d1 rcm)
    (h2 : LoopContract s1 d1 rcm s2 d2 rc2) :
    LoopContract self dest rc s2 d2 rc2 := by
  obtain ⟨M1, a1, b1, c1, d1c, e1, f1, g1, w1, w2, k1⟩ := h1
  obtain ⟨M2, a2, b2, c2, d2c, e2, f2, g2, w3, w4, k2⟩ := h2
  refine ⟨M1 ++ M2, by omega, ?_, ?_, ?_, ?_, by omega, by omega, w3, w4, ?_⟩
  · rw [List.length_append]; omega
  · intro c hc
    rcases List.mem_append.mp hc with hm | hm
    · exact c1 c hm
    · obtain ⟨hset, hunset⟩ := c2 c hm
      rw [d1c c] at hset
      rw [e1 c] at hunset
      constructor
      · cases hss : self.is_set c
        · rw [hss] at hset; simp at hset
        · rfl
      · cases hdd : dest.is_set c
        · rfl
        · rw [hdd] at hunset; simp at hunset
  · intro c
    rw [d2c c, d1c c]
    by_cases hm1 : c ∈ M1 <;> by_cases hm2 : c ∈ M2 <;> simp [hm1, hm2]
  · intro c
    rw [e2 c, e1 c]
    by_cases hm1 : c ∈ M1 <;> by_cases hm2 : c ∈ M2 <;> simp [hm1, hm2]
  · rw [List.length_append]; omega

theorem ChartRow.fillLoop_contract :
    ∀ (cells : List Nat) (self dest : ChartRow) (rc : TransferResult)
      (self1 dest1 : ChartRow) (rc1 : TransferResult),
      self.WF8 → dest.WF8 →
      fillLoop self dest rc cells = (self1, dest1, .ok rc1) →
      LoopContract self dest rc self1 dest1 rc1 := by
  intro cells
  induction cells with
  | nil =>
    intro self dest rc self1 dest1 rc1 hw1 hw2 h
    simp only [fillLoop, Prod.mk.injEq] at h
    obtain ⟨h1, h2, h3⟩ := h
    cases h3
    subst h1 h2
    exact LoopContract.refl self dest rc hw1 hw2
  | cons cell rest ih =>
    intro self dest rc self1 dest1 rc1 hw1 hw2 h
    simp only [fillLoop] at h
    split at h
    next hc =>
      have hcs : self.is_set cell = true := by
        cases hss : self.is_set cell
        · rw [hss] at hc; simp at hc
        · rfl
      have hcd : dest.is_set cell = false := by
        cases hdd : dest.is_set cell
        · rfl
        · rw [hdd] at hc; simp at hc
      split at h
      next su e hu => simp at h
      next su hu =>
        split at h
        next du e hsd => simp at h
        next du hsd =>
          split at h
          next e ht => simp at h
          next rcm ht =>
            obtain ⟨hstep, hsw, hdw⟩ := LoopContract.step hw1 hw2 hcs hcd hu hsd ht
            split at h
            next hz =>
              simp only [Prod.mk.injEq] at h
              obtain ⟨h1, h2, h3⟩ := h
              cases h3
              subst h1 h2
              exact hstep
            next hz =>
              exact hstep.comp (ih su du rcm self1 dest1 rc1 hsw hdw h)
    next hc =>
      exact ih self dest rc self1 dest1 rc1 hw1 hw2 h

theorem ChartRow.reverseLoop_contract :
    ∀ (cells : List Nat) (underflow : Bool) (self dest : ChartRow) (rc : TransferResult)
      (self1 dest1 : ChartRow) (rc1 : TransferResult),
      self.WF8 → dest.WF8 →
      reverseLoop self dest rc cells underflow = some (self1, dest1, .ok rc1) →
      LoopContract self dest rc self1 dest1 rc1 := by
  intro cells
  induction cells with
  | nil =>
    intro underflow self dest rc self1 dest1 rc1 hw1 hw2 h
    simp only [reverseLoop] at h
    split at h
    · cases h
    · simp only [Option.some.injEq, Prod.mk.injEq] at h
      obtain ⟨h1, h2, h3⟩ := h
      cases h3
      subst h1 h2
      exact LoopContract.refl self dest rc hw1 hw2
  | cons cell rest ih =>
    intro underflow self dest rc self1 dest1 rc1 hw1 hw2 h
    simp only [reverseLoop] at h
    split at h
    next hc =>
      have hcs : self.is_set cell = true := by
        cases hss : self.is_set cell
        · rw [hss] at hc; simp at hc
        · rfl
      have hcd : dest.is_set cell = false := by
        cases hdd : dest.is_set cell
        · rfl
        · rw [hdd] at hc; simp at hc
      split at h
      next su e hu => simp at h
      next su hu =>
        split at h
        next du e hsd => simp at h
        next du hsd =>
          split at h
          next e ht => simp at h
          next rcm ht =>
            obtain ⟨hstep, hsw, hdw⟩ := LoopContract.step hw1 hw2 hcs hcd hu hsd ht
            split at h
            next hz =>
              simp only [Option.some.injEq, Prod.mk.injEq] at h
              obtain ⟨h1, h2, h3⟩ := h
              cases h3
              subst h1 h2
              exact hstep
            next hz =>
              exact hstep.comp (ih underflow su du rcm self1 dest1 rc1 hsw hdw h)
    next hc =>
      exact ih underflow self dest rc self1 dest1 rc1 hw1 hw2 h

theorem ChartRow.smearPass_contract :
    ∀ (cells : List Nat) (self dest : ChartRow) (rc : TransferResult) (per want : ℚ)
      (trun : Nat) (self1 dest1 : ChartRow) (rc1 : TransferResult) (trun1 : Nat),
      self.WF8 → dest.WF8 →
      smearPass self dest rc per want trun cells = (self1, dest1, .ok rc1, trun1) →
      LoopContract self dest rc self1 dest1 rc1 := by
  intro cells
  induction cells with
  | nil =>
    intro self dest rc per want trun self1 dest1 rc1 trun1 hw1 hw2 h
    simp only [smearPass, Prod.mk.injEq] at h
    obtain ⟨h1, h2, h3, h4⟩ := h
    cases h3
    subst h1 h2
    exact LoopContract.refl self dest rc hw1 hw2
  | cons cell rest ih =>
    intro self dest rc per want trun self1 dest1 rc1 trun1 hw1 hw2 h
    simp only [smearPass] at h
    split at h
    next hc =>
      have hcs : self.is_set cell = true := by
        cases hss : self.is_set cell
        · rw [hss] at hc; simp at hc
        · rfl
      have hcd : dest.is_set cell = false := by
        cases hdd : dest.is_set cell
        · rfl
        · rw [hdd] at hc; simp at hc
      split at h
      next su e hu => simp at h
      next su hu =>
        split at h
        next du e hsd => simp at h
        next du hsd =>
          split at h
          next e ht => simp at h
          next rcm ht =>
            obtain ⟨hstep, hsw, hdw⟩ := LoopContract.step hw1 hw2 hcs hcd hu hsd ht
            split at h
            next hz =>
              simp only [Prod.mk.injEq] at h
              obtain ⟨h1, h2, h3, h4⟩ := h
              cases h3
              subst h1 h2
              exact hstep
            next hz =>
              exact hstep.comp
                (ih su du rcm per (want + per) (trun + 1) self1 dest1 rc1 trun1 hsw hdw h)
    next hc =>
      exact ih self dest rc per (want + per) trun self1 dest1 rc1 trun1 hw1 hw2 h

theorem ChartRow.smearPass_failed :
    ∀ (cells : List Nat) (self dest : ChartRow) (rc : TransferResult) (per want : ℚ)
      (trun : Nat) (self1 dest1 : ChartRow) (rc1 : TransferResult) (trun1 : Nat),
      smearPass self dest rc per want trun cells = (self1, dest1, .ok rc1, trun1) →
      rc1.failed + trun1 = rc.failed + trun := by
  intro cells
  induction cells with
  | nil =>
    intro self dest rc per want trun self1 dest1 rc1 trun1 h
    simp only [smearPass, Prod.mk.injEq] at h
    obtain ⟨-, -, h2, h3⟩ := h
    cases h2
    omega
  | cons cell rest ih =>
    intro self dest rc per want trun self1 dest1 rc1 trun1 h
    simp only [smearPass] at h
    split at h
    · split at h
      next su hu => simp at h
      next su hu =>
        split at h
        next du hsd => simp at h
        next du hsd =>
          split at h
          next e ht => simp at h
          next rcm ht =>
            obtain ⟨hne, hfm, -⟩ := TransferResult.transfer_ok ht
            split at h
            next hz =>
              simp only [Prod.mk.injEq] at h
              obtain ⟨-, -, h2, h3⟩ := h
              cases h2
              unfold TransferResult.to_transfer at hz
              omega
            next hz =>
              have := ih su du rcm per (want + per) (trun + 1) self1 dest1 rc1 trun1 h
              omega
    · exact ih self dest rc per (want + per) trun self1 dest1 rc1 trun1 h

theorem ChartRow.smearOuter_contract :
    ∀ (failed : Nat) (self dest : ChartRow) (rc : TransferResult)
      (period : ChartPeriod) (self1 dest1 : ChartRow) (rc1 : TransferResult),
      rc.failed = failed →
      self.WF8 → dest.WF8 →
      smearOuter self dest rc period = (self1, dest1, .ok rc1) →
      LoopContract self dest rc self1 dest1 rc1 := by
  intro failed
  induction failed using Nat.strong_induction_on with
  | _ failed ihs =>
    intro self dest rc period self1 dest1 rc1 hf hw1 hw2 h
    rw [smearOuter] at h
    split at h
    next h0 =>
      dsimp only at h
      split at h
      next s1 d1 e t1 hp => simp at h
      next s1 d1 rcm trun hp =>
        have hpass := smearPass_contract _ self dest rc _ 0 0 s1 d1 rcm trun hw1 hw2 hp
        have hfp := smearPass_failed _ self dest rc _ 0 0 s1 d1 rcm trun hp
        split at h
        next ht =>
          obtain ⟨hsw, hdw⟩ : s1.WF8 ∧ d1.WF8 := by
            obtain ⟨-, -, -, -, -, -, -, -, hsw, hdw, -⟩ := hpass
            exact ⟨hsw, hdw⟩
          exact hpass.comp (ihs rcm.failed (by omega) s1 d1 rcm period self1 dest1 rc1 rfl
            hsw hdw h)
        next ht =>
          simp only [Prod.mk.injEq] at h
          obtain ⟨h1, h2, h3⟩ := h
          cases h3
          subst h1 h2
          exact hpass
    next h0 =>
      simp only [Prod.mk.injEq] at h
      obtain ⟨h1, h2, h3⟩ := h
      cases h3
      subst h1 h2
      exact LoopContract.refl self dest rc hw1 hw2

theorem LoopContract.toTransferContract {self dest self1 dest1 : ChartRow} {count : Nat}
    {rc : TransferResult}
    (h : LoopContract self dest (TransferResult.new count) self1 dest1 rc) :
    TransferContract self dest count self1 dest1 rc := by
  obtain ⟨M, a, b, c, d, e, f, g, -, -, k⟩ := h
  simp only [TransferResult.new] at a b
  exact ⟨M, by omega, by omega, c, d, e, f, g, by omega⟩

/-- C1 (amended): for each of the three transfer operations, whenever the
call returns a `TransferResult` (it can instead error, or in the reverse
case underflow — see the counterexample), the result satisfies
`transferred + failed == requested`; a cell was moved only if before the
call it was set in the source and unset in the destination; exactly the
transferred cells became unset in the source and set in the destination,
every other cell of both rows is unchanged, and the source popcount drops by
exactly `transferred`.  The byte hypotheses `WF8` state that every stored
byte fits a `u8`, which the Rust `Vec<u8>` representation guarantees. -/
theorem c1_transfer_contract :
    (∀ (self dest : ChartRow) (count : Nat) (period : ChartPeriod)
       (self1 dest1 : ChartRow) (rc : TransferResult),
       self.WF8 → dest.WF8 →
       self.fill_transfer_to dest count period = (self1, dest1, .ok rc) →
       TransferContract self dest count self1 dest1 rc) ∧
    (∀ (self dest : ChartRow) (count : Nat) (period : ChartPeriod)
       (self1 dest1 : ChartRow) (rc : TransferResult),
       self.WF8 → dest.WF8 →
       self.reverse_fill_transfer_to dest count period = some (self1, dest1, .ok rc) →
       TransferContract self dest count self1 dest1 rc) ∧
    (∀ (self dest : ChartRow) (count : Nat) (period : ChartPeriod)
       (self1 dest1 : ChartRow) (rc : TransferResult),
       self.WF8 → dest.WF8 →
       self.smear_transfer_to dest count period = (self1, dest1, .ok rc) →
       TransferContract self dest count self1 dest1 rc) := by
  refine ⟨?_, ?_, ?_⟩
  · intro self dest count period self1 dest1 rc hw1 hw2 h
    exact (ChartRow.fillLoop_contract _ self dest _ self1 dest1 rc hw1 hw2 h).toTransferContract
  · intro self dest count period self1 dest1 rc hw1 hw2 h
    unfold ChartRow.reverse_fill_transfer_to at h
    split at h
    · cases h
    · exact (ChartRow.reverseLoop_contract _ _ self dest _ self1 dest1 rc hw1 hw2
        h).toTransferContract
  · intro self dest count period self1 dest1 rc hw1 hw2 h
    exact (ChartRow.smearOuter_contract count self dest _ period self1 dest1 rc rfl hw1 hw2
      h).toTransferContract

/-- Witness for C1: the theorem applied to concrete transfers of each kind.
The row `⟨8, [3]⟩` has cells 0 and 1 set. -/
theorem c1_transfer_contract_witness :
    TransferContract ⟨8, [3]⟩ (ChartRow.new 8) 1 ⟨8, [2]⟩ ⟨8, [1]⟩
      ⟨some 0, some 0, 1, 0⟩ ∧
    TransferContract ⟨8, [3]⟩ (ChartRow.new 8) 1 ⟨8, [1]⟩ ⟨8, [2]⟩
      ⟨some 1, some 1, 1, 0⟩ ∧
    TransferContract ⟨8, [3]⟩ (ChartRow.new 8) 0 ⟨8, [3]⟩ (ChartRow.new 8)
      (TransferResult.new 0) :=
  ⟨c1_transfer_contract.1 ⟨8, [3]⟩ (ChartRow.new 8) 1 ⟨0, 7⟩ ⟨8, [2]⟩ ⟨8, [1]⟩
      ⟨some 0, some 0, 1, 0⟩ (by decide) (by decide) (by decide),
   c1_transfer_contract.2.1 ⟨8, [3]⟩ (ChartRow.new 8) 1 ⟨0, 7⟩ ⟨8, [1]⟩ ⟨8, [2]⟩
      ⟨some 1, some 1, 1, 0⟩ (by decide) (by decide) (by decide),
   c1_transfer_contract.2.2 ⟨8, [3]⟩ (ChartRow.new 8) 0 ⟨0, 7⟩ ⟨8, [3]⟩ (ChartRow.new 8)
      (TransferResult.new 0) (by decide) (by decide)
      (by simp [ChartRow.smear_transfer_to, ChartRow.smearOuter, TransferResult.new,
        TransferResult.to_transfer])⟩

/-- C1 counterexample: with requested count 0 and a transferable cell in the
period, `fill_transfer_to` moves the cell out of the source and into the
destination and then returns an error instead of a `TransferResult` — so
the claim that every call returns a result with
`transferred + failed == requested` fails, and the mutation is not
accounted for by any result.  The row `⟨8, [1]⟩` has exactly cell 0 set. -/
theorem c1_transfer_contract_counterexample :
    (ChartRow.fill_transfer_to ⟨8, [1]⟩ (ChartRow.new 8) 0 ⟨0, 0⟩).2.2.isOk = false ∧
    (ChartRow.fill_transfer_to ⟨8, [1]⟩ (ChartRow.new 8) 0 ⟨0, 0⟩).1.is_set 0 = false ∧
    (ChartRow.fill_transfer_to ⟨8, [1]⟩ (ChartRow.new 8) 0 ⟨0, 0⟩).2.1.is_set 0 = true := by
  refine ⟨?_, ?_, ?_⟩ <;> decide

/-- C2: in the back-load scenario (weeks = 2 so 40 cells, now = week 1 which
is quarter index 0, a developer available over the whole chart so the
remaining period is `[0, 39]`, and a plan of 8 quarters),
`reverse_fill_transfer_to` starts its scan at `period.get_last() - 1 = 38`,
so the destination ends up with exactly cells 31..38 — cell 39 stays unset
and 8 cells are reported transferred — not with cells 32..39 as the claim
requires, and the transferred cells are not the highest transferable cells
of the period (cell 39 was transferable but skipped). -/
theorem c2_backload_boundary :
    (ChartRow.reverse_fill_transfer_to (((ChartRow.new 40).set_range ⟨0, 39⟩).1)
        (ChartRow.new 40) 8 ⟨0, 39⟩).map
      (fun out => (out.2.1.count_range ⟨0, 39⟩, out.2.1.is_set 39, out.2.1.is_set 31,
        out.2.1.count_range ⟨32, 39⟩, out.2.2.toOption.map (fun rc => rc.transferred)))
    = some (8, false, true, 7, some 8) := by decide

/-- C3: `reverse_fill_transfer_to` is not total.  With `period = [0, 1]` and
an unsatisfiable request the scan reaches cell 0 and the final `cell -= 1`
underflows the unsigned counter (`none` in this model: a panic in debug
builds, a wrap-around in release builds); with `period = [0, 0]` the initial
`period.get_last() - 1` underflows immediately. -/
theorem c3_reverse_fill_underflow :
    ChartRow.reverse_fill_transfer_to (ChartRow.new 8) (ChartRow.new 8) 1 ⟨0, 1⟩ = none ∧
    ChartRow.reverse_fill_transfer_to (ChartRow.new 8) (ChartRow.new 8) 1 ⟨0, 0⟩ = none := by
  refine ⟨?_, ?_⟩ <;> decide

/-- C6: `get_weekly_numbers` counts each week over the 21-cell window
`[20w, 20w + 20]`, so a set cell on a week boundary is counted twice.  For a
40-cell row with only cell 20 set the code returns `[1, 1]` — summing to 2 —
although the row has exactly one set cell and the window `[0, 19]` of week 0
contains none, where the claim requires `[0, 1]`. -/
theorem c6_weekly_numbers_boundary_double_count :
    ((((ChartRow.new 40).set 20).1).get_weekly_numbers = [1, 1]) ∧
    ((((ChartRow.new 40).set 20).1).count = 1) ∧
    ((((ChartRow.new 40).set 20).1).count_range ⟨0, 19⟩ = 0) := by
  refine ⟨by decide, ?_, by decide⟩
  have hrow : ((ChartRow.new 40).set 20).1 = ⟨40, [0, 0, 16]⟩ := by decide
  rw [hrow]
  show ((⟨40, [0, 0, 16]⟩ : ChartRow).cells.map popcount).sum = 1
  have h0 : popcount 0 = 0 := by rw [popcount]; norm_num
  have h1 : popcount 1 = 1 := by rw [popcount]; norm_num [h0]
  have h2 : popcount 2 = 1 := by rw [popcount]; norm_num [h1]
  have h4 : popcount 4 = 1 := by rw [popcount]; norm_num [h2]
  have h8 : popcount 8 = 1 := by rw [popcount]; norm_num [h4]
  have h16 : popcount 16 = 1 := by rw [popcount]; norm_num [h8]
  simp [h0, h16]

/-- C10: period intersection is commutative, and whenever the intersection
exists its length is at most the length of either operand. -/
theorem c10_intersect_comm_and_length :
    (∀ p q : ChartPeriod, p.intersect q = q.intersect p) ∧
    (∀ p q r : ChartPeriod, p.first ≤ p.last → q.first ≤ q.last →
      p.intersect q = some r → r.length ≤ min p.length q.length) := by
  constructor
  · intro p q
    unfold ChartPeriod.intersect
    split_ifs <;>
      first
        | rfl
        | (exfalso; omega)
        | (simp only [Option.some.injEq, ChartPeriod.mk.injEq, and_true, true_and]; omega)
  · intro p q r hp hq h
    unfold ChartPeriod.intersect at h
    split_ifs at h <;>
      (simp only [Option.some.injEq] at h; subst h; simp only [ChartPeriod.length]; omega)

/-! Invariant preservation for C8. -/

theorem ChartRow.inv_new (n : Nat) : (ChartRow.new n).inv := by
  intro c _
  exact is_set_false_of_len _ c (by simp [ChartRow.new])

theorem ChartRow.inv_set (row : ChartRow) (cell : Nat) (h : row.inv) :
    ((row.set cell).1).inv := by
  by_cases hlt : cell < row.num_cells
  · intro c hc
    rw [set_num_cells] at hc
    rw [set_is_set row cell hlt c]
    have hne : ¬ c = cell := by omega
    simp [hne, h c hc]
  · rw [(set_err_of_ge row cell (by omega)).1]
    exact h

theorem ChartRow.inv_unset (row : ChartRow) (cell : Nat) (h : row.inv) :
    ((row.unset cell).1).inv := by
  by_cases hlt : cell < row.num_cells
  · intro c hc
    rw [unset_num_cells] at hc
    rw [unset_is_set row cell hlt c]
    simp [h c hc]
  · rw [(unset_err_of_ge row cell (by omega)).1]
    exact h

theorem ChartRow.inv_setRangeLoop :
    ∀ (cells : List Nat) (row : ChartRow), row.inv → ((setRangeLoop row cells).1).inv := by
  intro cells
  induction cells with
  | nil => intro row h; exact h
  | cons c rest ih =>
    intro row h
    simp only [setRangeLoop]
    rcases hs : row.set c with ⟨row1, e⟩
    have hrow1 : row1 = (row.set c).1 := by rw [hs]
    cases e with
    | error msg => subst hrow1; exact inv_set row c h
    | ok u =>
      cases u
      exact ih row1 (hrow1 ▸ inv_set row c h)

theorem ChartRow.inv_set_range (row : ChartRow) (period : ChartPeriod) (h : row.inv) :
    ((row.set_range period).1).inv :=
  inv_setRangeLoop _ row h

theorem ChartRow.inv_fillLoop :
    ∀ (cells : List Nat) (self dest : ChartRow) (rc : TransferResult),
      self.inv → dest.inv →
      ((fillLoop self dest rc cells).1).inv ∧ ((fillLoop self dest rc cells).2.1).inv := by
  intro cells
  induction cells with
  | nil => intro self dest rc h1 h2; exact ⟨h1, h2⟩
  | cons cell rest ih =>
    intro self dest rc h1 h2
    simp only [fillLoop]
    split
    next hc =>
      split
      next s1 e hu =>
        have hs1 : s1 = (self.unset cell).1 := by rw [hu]
        exact ⟨hs1 ▸ inv_unset self cell h1, h2⟩
      next s1 hu =>
        have hs1i : s1.inv := by
          have hs1 : s1 = (self.unset cell).1 := by rw [hu]
          exact hs1 ▸ inv_unset self cell h1
        split
        next d1 e hsd =>
          have hd1 : d1 = (dest.set cell).1 := by rw [hsd]
          exact ⟨hs1i, hd1 ▸ inv_set dest cell h2⟩
        next d1 hsd =>
          have hd1i : d1.inv := by
            have hd1 : d1 = (dest.set cell).1 := by rw [hsd]
            exact hd1 ▸ inv_set dest cell h2
          split
          next e ht => exact ⟨hs1i, hd1i⟩
          next rcm ht =>
            split
            · exact ⟨hs1i, hd1i⟩
            · exact ih s1 d1 rcm hs1i hd1i
    next hc =>
      exact ih self dest rc h1 h2

theorem ChartRow.inv_reverseLoop :
    ∀ (cells : List Nat) (underflow : Bool) (self dest : ChartRow) (rc : TransferResult)
      (out : ChartRow × ChartRow × Except String TransferResult),
      self.inv → dest.inv →
      reverseLoop self dest rc cells underflow = some out →
      out.1.inv ∧ out.2.1.inv := by
  intro cells
  induction cells with
  | nil =>
    intro underflow self dest rc out h1 h2 h
    simp only [reverseLoop] at h
    split at h
    · cases h
    · cases h; exact ⟨h1, h2⟩
  | cons cell rest ih =>
    intro underflow self dest rc out h1 h2 h
    simp only [reverseLoop] at h
    split at h
    next hc =>
      split at h
      next s1 e hu =>
        cases h
        have hs1 : s1 = (self.unset cell).1 := by rw [hu]
        exact ⟨hs1 ▸ inv_unset self cell h1, h2⟩
      next s1 hu =>
        have hs1i : s1.inv := by
          have hs1 : s1 = (self.unset cell).1 := by rw [hu]
          exact hs1 ▸ inv_unset self cell h1
        split at h
        next d1 e hsd =>
          cases h
          have hd1 : d1 = (dest.set cell).1 := by rw [hsd]
          exact ⟨hs1i, hd1 ▸ inv_set dest cell h2⟩
        next d1 hsd =>
          have hd1i : d1.inv := by
            have hd1 : d1 = (dest.set cell).1 := by rw [hsd]
            exact hd1 ▸ inv_set dest cell h2
          split at h
          next e ht => cases h; exact ⟨hs1i, hd1i⟩
          next rcm ht =>
            split at h
            · cases h; exact ⟨hs1i, hd1i⟩
            · exact ih underflow s1 d1 rcm out hs1i hd1i h
    next hc =>
      exact ih underflow self dest rc out h1 h2 h

theorem ChartRow.inv_smearPass :
    ∀ (cells : List Nat) (self dest : ChartRow) (rc : TransferResult) (per want : ℚ)
      (trun : Nat),
      self.inv → dest.inv →
      ((smearPass self dest rc per want trun cells).1).inv ∧
      ((smearPass self dest rc per want trun cells).2.1).inv := by
  intro cells
  induction cells with
  | nil => intro self dest rc per want trun h1 h2; exact ⟨h1, h2⟩
  | cons cell rest ih =>
    intro self dest rc per want trun h1 h2
    simp only [smearPass]
    split
    next hc =>
      split
      next s1 e hu =>
        have hs1 : s1 = (self.unset cell).1 := by rw [hu]
        exact ⟨hs1 ▸ inv_unset self cell h1, h2⟩
      next s1 hu =>
        have hs1i : s1.inv := by
          have hs1 : s1 = (self.unset cell).1 := by rw [hu]
          exact hs1 ▸ inv_unset self cell h1
        split
        next d1 e hsd =>
          have hd1 : d1 = (dest.set cell).1 := by rw [hsd]
          exact ⟨hs1i, hd1 ▸ inv_set dest cell h2⟩
        next d1 hsd =>
          have hd1i : d1.inv := by
            have hd1 : d1 = (dest.set cell).1 := by rw [hsd]
            exact hd1 ▸ inv_set dest cell h2
          split
          next e ht => exact ⟨hs1i, hd1i⟩
          next rcm ht =>
            split
            · exact ⟨hs1i, hd1i⟩
            · exact ih s1 d1 rcm per (want + per) (trun + 1) hs1i hd1i
    next hc =>
      exact ih self dest rc per (want + per) trun h1 h2

theorem ChartRow.inv_smearOuter :
    ∀ (failed : Nat) (self dest : ChartRow) (rc : TransferResult) (period : ChartPeriod),
      rc.failed = failed →
      self.inv → dest.inv →
      ((smearOuter self dest rc period).1).inv ∧
      ((smearOuter self dest rc period).2.1).inv := by
  intro failed
  induction failed using Nat.strong_induction_on with
  | _ failed ihs =>
    intro self dest rc period hf h1 h2
    rw [smearOuter]
    split
    next h0 =>
      dsimp only
      split
      next s1 d1 e t1 hp =>
        have := inv_smearPass (List.range' period.first (period.last + 1 - period.first))
          self dest rc ((rc.to_transfer : ℚ) / (period.length : ℚ)) 0 0 h1 h2
        rw [hp] at this
        exact this
      next s1 d1 rcm trun hp =>
        have hpassinv := inv_smearPass
          (List.range' period.first (period.last + 1 - period.first))
          self dest rc ((rc.to_transfer : ℚ) / (period.length : ℚ)) 0 0 h1 h2
        rw [hp] at hpassinv
        obtain ⟨hs1i, hd1i⟩ := hpassinv
        have hfp := smearPass_failed _ self dest rc _ 0 0 s1 d1 rcm trun hp
        split
        next ht =>
          have h0f : rc.failed ≠ 0 := by
            unfold TransferResult.to_transfer at h0
            exact h0
          exact ihs rcm.failed (by omega) s1 d1 rcm period rfl hs1i hd1i
        next ht => exact ⟨hs1i, hd1i⟩
    next h0 => exact ⟨h1, h2⟩

theorem ChartRow.inv_reachable : ∀ (row : ChartRow), row.Reachable → row.inv := by
  intro row h
  induction h with
  | new n => exact inv_new n
  | set row cell _ ih => exact inv_set row cell ih
  | unset row cell _ ih => exact inv_unset row cell ih
  | set_range row period _ ih => exact inv_set_range row period ih
  | fill_src self dest count period _ _ ih1 ih2 =>
    exact (inv_fillLoop _ self dest _ ih1 ih2).1
  | fill_dest self dest count period _ _ ih1 ih2 =>
    exact (inv_fillLoop _ self dest _ ih1 ih2).2
  | reverse_src self dest count period out _ _ heq ih1 ih2 =>
    unfold reverse_fill_transfer_to at heq
    split at heq
    · cases heq
    · exact (inv_reverseLoop _ _ self dest _ out ih1 ih2 heq).1
  | reverse_dest self dest count period out _ _ heq ih1 ih2 =>
    unfold reverse_fill_transfer_to at heq
    split at heq
    · cases heq
    · exact (inv_reverseLoop _ _ self dest _ out ih1 ih2 heq).2
  | smear_src self dest count period _ _ ih1 ih2 =>
    exact (inv_smearOuter _ self dest _ period rfl ih1 ih2).1
  | smear_dest self dest count period _ _ ih1 ih2 =>
    exact (inv_smearOuter _ self dest _ period rfl ih1 ih2).2

/-- C8: out-of-range `set` and `unset` return an error and leave the row
unchanged, and `is_set` returns `false` at any index at or beyond
`num_cells` for every row reachable through the public `ChartRow`
operations — no operation can ever set a bit at such an index. -/
theorem c8_out_of_range_cells :
    (∀ (row : ChartRow) (cell : Nat), row.num_cells ≤ cell →
       (row.set cell).1 = row ∧ (row.set cell).2.isOk = false ∧
       (row.unset cell).1 = row ∧ (row.unset cell).2.isOk = false) ∧
    (∀ row : ChartRow, row.Reachable → ∀ cell, row.num_cells ≤ cell →
       row.is_set cell = false) := by
  constructor
  · intro row cell h
    obtain ⟨a1, a2⟩ := ChartRow.set_err_of_ge row cell h
    obtain ⟨b1, b2⟩ := ChartRow.unset_err_of_ge row cell h
    exact ⟨a1, a2, b1, b2⟩
  · intro row hr cell hcell
    exact ChartRow.inv_reachable row hr cell hcell

/-- Witness for C8: a freshly created 4-cell row with cell 2 set, probed out
of range at cell 7. -/
theorem c8_out_of_range_cells_witness :
    ((((ChartRow.new 4).set 2).1).set 7).1 = ((ChartRow.new 4).set 2).1 ∧
    ((((ChartRow.new 4).set 2).1).set 7).2.isOk = false ∧
    ((((ChartRow.new 4).set 2).1).unset 7).1 = ((ChartRow.new 4).set 2).1 ∧
    ((((ChartRow.new 4).set 2).1).unset 7).2.isOk = false ∧
    (((ChartRow.new 4).set 2).1).is_set 7 = false :=
  ⟨(c8_out_of_range_cells.1 (((ChartRow.new 4).set 2).1) 7 (by decide)).1,
   (c8_out_of_range_cells.1 (((ChartRow.new 4).set 2).1) 7 (by decide)).2.1,
   (c8_out_of_range_cells.1 (((ChartRow.new 4).set 2).1) 7 (by decide)).2.2.1,
   (c8_out_of_range_cells.1 (((ChartRow.new 4).set 2).1) 7 (by decide)).2.2.2,
   c8_out_of_range_cells.2 (((ChartRow.new 4).set 2).1)
     (ChartRow.Reachable.set (ChartRow.new 4) 2 (ChartRow.Reachable.new 4)) 7 (by decide)⟩

/-! The plan-lookup characterisation for C7. -/

theorem NodeConfigData.planFold_eq :
    ∀ (vec : List PlanEntry) (whenq : Nat) (acc : Option Nat × Option String),
      planFold vec whenq acc =
        match (vec.filter (fun e => decide (e.when ≤ whenq))).getLast? with
        | none => acc
        | some e => (some e.plan, e.suffix) := by
  intro vec
  induction vec with
  | nil => intro whenq acc; rfl
  | cons e rest ih =>
    intro whenq acc
    simp only [planFold, List.filter_cons]
    by_cases hq : whenq ≥ e.when
    · rw [if_pos hq, if_pos (by simpa using hq)]
      rw [ih whenq (some e.plan, e.suffix)]
      rw [List.getLast?_cons]
      cases hl : (rest.filter (fun x => decide (x.when ≤ whenq))).getLast? with
      | none => simp [hl]
      | some x => simp [hl]
    · rw [if_neg hq, if_neg (by simpa using hq)]
      exact ih whenq acc

/-- C7: the effective plan lookup returns the plan quantity of the last
entry in vector order whose `when` is at or before the query time (later
entries override earlier ones), `none` when no entry qualifies; a `pcy`
suffix scales the quantity `p` to `ceil(p * dev_duration / (20*52))` and a
`pcm` suffix (any other suffix string, per the code) to
`ceil(p * dev_duration * 12 / (20*52))`; and the same function implements
both the plan and the default-plan lookups. -/
theorem c7_get_plan_lookup :
    (∀ (node : NodeConfigData) (root : RootConfigData) (dev : Option String) (whenq : Nat)
       (vec : List PlanEntry),
       node.get_plan_internal root dev whenq vec =
         ((vec.filter (fun e => decide (e.when ≤ whenq))).getLast?).map (fun e =>
           match e.suffix with
           | none => e.plan
           | some s =>
             if s = "pcy" then
               (((e.plan : ℚ) * (root.get_plan_dev_duration dev : ℚ) / (20 * 52)).ceil).toNat
             else
               (((e.plan : ℚ) * (root.get_plan_dev_duration dev : ℚ) * 12
                  / (20 * 52)).ceil).toNat)) ∧
    (∀ (node : NodeConfigData) (root : RootConfigData) (dev : Option String) (whenq : Nat),
       node.get_plan root dev whenq = node.get_plan_internal root dev whenq node.plan) ∧
    (∀ (node : NodeConfigData) (root : RootConfigData) (dev : Option String) (whenq : Nat),
       node.get_default_plan root dev whenq
         = node.get_plan_internal root dev whenq node.default_plan) := by
  refine ⟨?_, fun _ _ _ _ => rfl, fun _ _ _ _ => rfl⟩
  intro node root dev whenq vec
  unfold NodeConfigData.get_plan_internal
  rw [NodeConfigData.planFold_eq]
  cases hl : (vec.filter (fun e => decide (e.when ≤ whenq))).getLast? with
  | none => rfl
  | some e =>
    simp only [Option.map_some']
    cases hs : e.suffix with
    | none => rfl
    | some s =>
      by_cases hpcy : s = "pcy"
      · simp [hpcy]
      · have harg : (e.plan : ℚ) * (root.get_plan_dev_duration dev : ℚ) / (20 * 52 / 12)
            = (e.plan : ℚ) * (root.get_plan_dev_duration dev : ℚ) * 12 / (20 * 52) := by
          ring
        simp [hpcy, harg]

/-- C9: for every phase function and every descendant list, the scheduler
walker `call_on_children` never aborts: it returns `Ok`, processes every
node, and — as the reference function `call_on_children_total` makes
explicit — a node on which the phase function errors gets the flattened
error chain recorded as a note via `add_note` while iteration continues
over the remaining descendants. -/
theorem c9_phase_errors_become_notes :
    ∀ (node_fn : NodeConfigData → RootConfigData →
        NodeConfigData × RootConfigData × Except (List String) Unit)
      (nodes : List NodeConfigData) (rd : RootConfigData),
      call_on_children node_fn nodes (some rd) =
        .ok ((call_on_children_total node_fn nodes rd).1,
          some (call_on_children_total node_fn nodes rd).2) := by
  intro node_fn nodes
  induction nodes with
  | nil => intro rd; rfl
  | cons n rest ih =>
    intro rd
    simp only [call_on_children, call_on_children_total]
    rcases hf : node_fn n rd with ⟨n1, rd1, res⟩
    cases res with
    | ok u =>
      cases u
      dsimp only
      rw [ih rd1]
    | error e =>
      dsimp only
      simp only [NodeConfigData.add_note]
      rw [ih rd1]

/-! Lemmas for C5: the management-transfer week decomposition. -/

/-- C4 (amended): the future-transfer phases that run through
`transfer_future_resource` — smear, front-load, back-load, unmanaged and
remaining — are no-ops (state unchanged, no error) on a node whose
`resource_transferred` flag is already set, and `transfer_future_resource`
is likewise a no-op when the node has no `now_plan`.  The management phase
`transfer_future_management_resource` checks neither condition, and
re-running it can transfer further cells — see the counterexample. -/
theorem c4_future_transfer_flag_noop :
    (∀ (node : NodeConfigData) (root : RootConfigData) (r : Option ResourcingStrategy),
       node.resource_transferred = true →
       node.transfer_future_resource root r = some (.ok (node, root))) ∧
    (∀ (node : NodeConfigData) (root : RootConfigData) (r : Option ResourcingStrategy),
       node.now_plan = none →
       node.transfer_future_resource root r = some (.ok (node, root))) ∧
    (∀ (node : NodeConfigData) (root : RootConfigData),
       node.resource_transferred = true →
       node.transfer_future_smear root = some (.ok (node, root)) ∧
       node.transfer_future_frontload root = some (.ok (node, root)) ∧
       node.transfer_future_backload root = some (.ok (node, root)) ∧
       node.transfer_future_unmanaged_resource root = some (.ok (node, root)) ∧
       node.transfer_future_remaining_resource root = some (.ok (node, root))) := by
  have base : ∀ (node : NodeConfigData) (root : RootConfigData)
      (r : Option ResourcingStrategy), node.resource_transferred = true →
      node.transfer_future_resource root r = some (.ok (node, root)) := by
    intro node root r h
    unfold NodeConfigData.transfer_future_resource
    rw [if_pos h]
  refine ⟨base, ?_, ?_⟩
  · intro node root r h
    unfold NodeConfigData.transfer_future_resource
    by_cases hrt : node.resource_transferred
    · rw [if_pos hrt]
    · rw [if_neg hrt, if_pos (by rw [h]; rfl)]
  · intro node root h
    refine ⟨?_, ?_, ?_, ?_, ?_⟩
    · unfold NodeConfigData.transfer_future_smear
      cases node.resourcing with
      | none => rfl
      | some r =>
        by_cases hr : r = .SmearRemaining ∨ r = .SmearProRata ∨ r = .ProdSFR
        · simp only [hr, if_pos]
          exact base node root (some r) h
        · simp only [if_neg hr]
    · unfold NodeConfigData.transfer_future_frontload
      cases node.resourcing with
      | none => rfl
      | some r =>
        by_cases hr : r = .FrontLoad
        · simp only [hr, if_pos]
          exact base node root _ h
        · simp only [if_neg hr]
    · unfold NodeConfigData.transfer_future_backload
      cases node.resourcing with
      | none => rfl
      | some r =>
        dsimp only
        by_cases hr : r = .BackLoad
        · simp only [hr, if_pos]
          exact base node root _ h
        · rw [if_neg hr]
          by_cases hr2 : r = .ProdSFR
          · rw [if_pos hr2]
            exact base node root _ h
          · rw [if_neg hr2]
    · unfold NodeConfigData.transfer_future_unmanaged_resource
      by_cases hm : node.managed
      · rw [if_pos hm]
      · rw [if_neg hm]
        exact base node root none h
    · exact base node root none h

/-- Witness for C4: the no-ops applied to a concrete flagged node and a
concrete node without a `now_plan`. -/
theorem c4_future_transfer_flag_noop_witness :
    ({ NodeConfigData.new 4 with resource_transferred := true
      } : NodeConfigData).transfer_future_resource ⟨0, 0, none, [], 0⟩ none
      = some (.ok ({ NodeConfigData.new 4 with resource_transferred := true }, ⟨0, 0, none, [], 0⟩)) ∧
    (NodeConfigData.new 4).transfer_future_resource ⟨0, 0, none, [], 0⟩ none
      = some (.ok (NodeConfigData.new 4, ⟨0, 0, none, [], 0⟩)) ∧
    ({ NodeConfigData.new 4 with resource_transferred := true
      } : NodeConfigData).transfer_future_smear ⟨0, 0, none, [], 0⟩
      = some (.ok ({ NodeConfigData.new 4 with resource_transferred := true }, ⟨0, 0, none, [], 0⟩)) :=
  ⟨c4_future_transfer_flag_noop.1 _ _ none (by decide),
   c4_future_transfer_flag_noop.2.1 _ _ none (by decide),
   (c4_future_transfer_flag_noop.2.2 _ _ (by decide)).1⟩

/-- C4 counterexample: on a node whose `resource_transferred` flag is
already `true` (the state after a first successful management transfer),
re-running `transfer_future_management_resource` is not a no-op: it
recomputes the weekly demand and transfers four further cells from the
manager row, growing the node from 4 to 8 set cells. -/
theorem c4_future_transfer_flag_noop_counterexample :
    c4exNode.resource_transferred = true ∧
    c4exNode.cells.count_range ⟨0, 19⟩ = 4 ∧
    (c4exNode.transfer_future_management_resource c4exRoot).map (fun r =>
      r.toOption.map (fun out =>
        (out.1.cells == c4exNode.cells, out.1.cells.count_range ⟨0, 19⟩)))
      = some (some (false, 8)) := by
  refine ⟨by decide, by decide, by decide⟩

/-- Witness for C10: the length bound applied to two concrete overlapping
periods. -/
theorem c10_intersect_witness :
    ChartPeriod.intersect ⟨2, 9⟩ ⟨5, 30⟩ = some ⟨5, 9⟩ ∧
    (⟨5, 9⟩ : ChartPeriod).length ≤ min (⟨2, 9⟩ : ChartPeriod).length
      (⟨5, 30⟩ : ChartPeriod).length :=
  ⟨by decide,
   c10_intersect_comm_and_length.2 ⟨2, 9⟩ ⟨5, 30⟩ ⟨5, 9⟩ (by decide) (by decide) (by decide)⟩

end Planner
